import Mathlib

/-!
Shallow embedding of the hungergames-bot rule/condition evaluation and
weighted event-resolution engine (src/game/Character.py, src/game/Check.py,
src/game/Game.py), together with proofs settling the specification claims.

External collaborators (`Item`, `Zone`, `State`, `Valids`, `Event`) are not
part of the sources; where a definition stands in for one of them it is
modelled from the specification's collaborator contracts and carries a doc
comment saying so.  Everything else is translated directly from the Python
sources.
-/

/-- Modelled from the spec: Item exposes `copy() -> Item` (value semantics),
`hasAllTags(tags) -> bool` and `getName() -> string`.  An item is represented
by its name and its tag set. -/
structure Item where
  name : String
  tags : List String
deriving DecidableEq, Repr

/-- Modelled from the spec: `Item.getName`. -/
def Item.getName (i : Item) : String := i.name

/-- Modelled from the spec: `Item.hasAllTags` holds when the item possesses
every tag in the given list. -/
def Item.hasAllTags (i : Item) (ts : List String) : Bool :=
  ts.all (fun t => i.tags.contains t)

/-- Modelled from the spec: a Zone exposes a `name`; Python compares Zone
objects by object identity, represented here by the `zid` field. -/
structure Zone where
  name : String
  zid : Nat
deriving DecidableEq, Repr

/-- `Character` from src/game/Character.py.  Fields follow `__init__`:
name, image source (already filtered through `_match_url`, hence `Option`),
the six pronoun-profile slots, items, tags, location, alliance, liveness,
and the two round counters.  `alliance : list[Character]` makes the type an
inductive rather than a structure. -/
inductive Character where
  | mk (name : String) (imgSrc : Option String)
       (subj obj plur1 plur2 flex : String) (plural : Bool)
       (items : List Item) (tags : List String) (location : Option Zone)
       (alliance : List Character) (alive : Bool)
       (age : Nat) (roundsSurvived : Nat)

def Character.name : Character → String
  | .mk n _ _ _ _ _ _ _ _ _ _ _ _ _ _ => n

def Character.imgSrc : Character → Option String
  | .mk _ i _ _ _ _ _ _ _ _ _ _ _ _ _ => i

def Character.subj : Character → String
  | .mk _ _ s _ _ _ _ _ _ _ _ _ _ _ _ => s

def Character.obj : Character → String
  | .mk _ _ _ o _ _ _ _ _ _ _ _ _ _ _ => o

def Character.plur1 : Character → String
  | .mk _ _ _ _ p _ _ _ _ _ _ _ _ _ _ => p

def Character.plur2 : Character → String
  | .mk _ _ _ _ _ p _ _ _ _ _ _ _ _ _ => p

def Character.flex : Character → String
  | .mk _ _ _ _ _ _ f _ _ _ _ _ _ _ _ => f

def Character.plural : Character → Bool
  | .mk _ _ _ _ _ _ _ p _ _ _ _ _ _ _ => p

def Character.items : Character → List Item
  | .mk _ _ _ _ _ _ _ _ it _ _ _ _ _ _ => it

def Character.tags : Character → List String
  | .mk _ _ _ _ _ _ _ _ _ t _ _ _ _ _ => t

def Character.location : Character → Option Zone
  | .mk _ _ _ _ _ _ _ _ _ _ l _ _ _ _ => l

def Character.alliance : Character → List Character
  | .mk _ _ _ _ _ _ _ _ _ _ _ a _ _ _ => a

def Character.alive : Character → Bool
  | .mk _ _ _ _ _ _ _ _ _ _ _ _ a _ _ => a

def Character.age : Character → Nat
  | .mk _ _ _ _ _ _ _ _ _ _ _ _ _ a _ => a

def Character.roundsSurvived : Character → Nat
  | .mk _ _ _ _ _ _ _ _ _ _ _ _ _ _ r => r

/-- Python's `str.capitalize`: first character uppercased, the rest
lowercased. -/
def pyCapitalize (s : String) : String :=
  match s.data with
  | [] => ""
  | c :: cs => String.mk (c.toUpper :: cs.map Char.toLower)

/-- `Character.string` with no tag argument (the only form the modelled
operations call): returns `self.name` capitalized.  The tagged branches
perform pronoun substitution via the external `inflect` library and are not
exercised here. -/
def Character.string (c : Character) : String := pyCapitalize c.name

/-- `Character.hasTag`. -/
def Character.hasTag (c : Character) (tag : String) : Bool := c.tags.contains tag

/-- `Character.isAlive`. -/
def Character.isAlive (c : Character) : Bool := c.alive

/-- `Character.getItemByTags`: the first owned item having all the given
tags, `none` otherwise. -/
def Character.getItemByTags (c : Character) (ts : List String) : Option Item :=
  c.items.find? (fun i => i.hasAllTags ts)

/-- `Character.getItemByName`: the first owned item with the given name. -/
def Character.getItemByName (c : Character) (n : String) : Option Item :=
  c.items.find? (fun i => i.getName == n)

/-- `Character.isIn`: `self.location.name == loc`.  With no location Python
raises `AttributeError`, modelled by `none`. -/
def Character.isIn (c : Character) (loc : String) : Option Bool :=
  c.location.map (fun z => z.name == loc)

/-- `Character.isNearby`: location equality (`Zone` compared by object
identity). -/
def Character.isNearby (c other : Character) : Bool :=
  c.location == other.location

/-- `Character.isAlone`: `len(self.alliance) == 0`. -/
def Character.isAlone (c : Character) : Bool := c.alliance.isEmpty

/-- `Character.__eq__`: compares name, image source, the six pronoun fields,
items, tags, location and liveness; the alliance (and the two counters) are
not compared — the source comments that including the alliance would recurse
forever. -/
def Character.pyEq (a b : Character) : Bool :=
  a.name == b.name &&
  a.imgSrc == b.imgSrc &&
  a.subj == b.subj && a.obj == b.obj && a.plur1 == b.plur1 &&
  a.plur2 == b.plur2 && a.flex == b.flex && a.plural == b.plural &&
  a.items == b.items &&
  a.tags == b.tags &&
  a.location == b.location &&
  a.alive == b.alive

/-- `Character.__hash__` hashes the tuple
`(name, imgSrc, subj, obj, plur1, plur2, flex, plural)`.  The tuple itself is
used as the hash key: Python guarantees equal tuples hash equally, so two
characters with equal keys have equal hashes. -/
def Character.hashKey (c : Character) :
    String × Option String × String × String × String × String × String × Bool :=
  (c.name, c.imgSrc, c.subj, c.obj, c.plur1, c.plur2, c.flex, c.plural)

/-- `Character.isAllyOf`: `other in self.alliance`; Python's `in` uses
`__eq__`, i.e. `pyEq`. -/
def Character.isAllyOf (c other : Character) : Bool :=
  c.alliance.any (fun a => a.pyEq other)

/-- Modelled from the spec: the per-trigger-chain Simulation State maps
character and item shorthand tokens to bound instances, keeps running trigger
counters (total and per-character, the latter keyed here by character name),
accumulates per-character result strings, and carries the text-substitution
capability as an abstract function. -/
structure State where
  boundChars : List (String × Character)
  boundItems : List (String × Item)
  charTriggers : List (String × Nat)
  totalTriggers : Nat
  resultStrs : List (Character × String)
  replText : String → String

/-- Modelled from the spec: `State.getChar(slot)` resolves a bound character
shorthand. -/
def State.getChar (st : State) (short : String) : Option Character :=
  st.boundChars.lookup short

/-- Modelled from the spec: `State.setItem(slot, item)` binds an item under
an item shorthand. -/
def State.setItem (st : State) (short : String) (item : Item) : State :=
  { st with boundItems := (short, item) :: st.boundItems }

/-- Modelled from the spec: `State.getItem`-style lookup of a bound item
shorthand (the most recent binding wins). -/
def State.getItem (st : State) (short : String) : Option Item :=
  st.boundItems.lookup short

/-- Modelled from the spec: `State.getTriggersFor(character)`, the
per-character trigger counter (0 when the character never triggered). -/
def State.getTriggersFor (st : State) (c : Character) : Nat :=
  (st.charTriggers.lookup c.name).getD 0

/-- Modelled from the spec: `State.getTotalTriggers()`. -/
def State.getTotalTriggers (st : State) : Nat := st.totalTriggers

/-- Modelled from the spec: `State.getReplacedText(template)`, pronoun/name
substitution using the bound characters; the algorithm itself is external,
so it is carried as the `replText` field. -/
def State.getReplacedText (st : State) (template : String) : String :=
  st.replText template

/-- Modelled from the spec: `State.getResultStrs()`. -/
def State.getResultStrs (st : State) : List (Character × String) := st.resultStrs

/-- Modelled from the spec: the fresh State an Event creates when `prepare`
is called without one. -/
def State.init : State :=
  { boundChars := [], boundItems := [], charTriggers := [], totalTriggers := 0,
    resultStrs := [], replText := fun t => t }

/-- Modelled from the spec: the Identifier Registry accumulates shorthand
tokens per category (character-slot, item-slot, tag-name, zone-name) and
resolves against the separately-loaded item catalog. -/
structure Valids where
  charShorts : List String
  itemShorts : List String
  tagNames : List String
  zoneNames : List String
  loadedItems : List Item
deriving Repr

/-- Modelled from the spec: `addCharShort(token)`, idempotent registration. -/
def Valids.addCharShort (v : Valids) (s : String) : Valids :=
  if v.charShorts.contains s then v else { v with charShorts := s :: v.charShorts }

/-- Modelled from the spec: item-shorthand registration, idempotent. -/
def addItemShortToValids (s : String) (v : Valids) : Valids :=
  if v.itemShorts.contains s then v else { v with itemShorts := s :: v.itemShorts }

/-- Modelled from the spec: tag-name registration, idempotent. -/
def addTagNameToValids (s : String) (v : Valids) : Valids :=
  if v.tagNames.contains s then v else { v with tagNames := s :: v.tagNames }

/-- Modelled from the spec: `validateCharShort` fails with a ValidationError
if the token was never registered as a character shorthand. -/
def validateCharShort (s : String) (v : Valids) : Except String Unit :=
  if v.charShorts.contains s then .ok ()
  else .error "ValidationError: unknown character shorthand"

/-- Modelled from the spec: `validateIsInt` fails if the token is not a
base-10 integer literal. -/
def validateIsInt (s : String) : Except String Unit :=
  if (s.toInt?).isSome then .ok ()
  else .error "ValidationError: not an integer literal"

/-- Modelled from the spec: `validateLoadedItemTag` fails if no loaded item
carries the tag. -/
def validateLoadedItemTag (t : String) (v : Valids) : Except String Unit :=
  if v.loadedItems.any (fun i => i.tags.contains t) then .ok ()
  else .error "ValidationError: unknown item tag"

/-- Modelled from the spec: `validateLoadedZoneName` fails if the zone name
is unknown. -/
def validateLoadedZoneName (z : String) (v : Valids) : Except String Unit :=
  if v.zoneNames.contains z then .ok ()
  else .error "ValidationError: unknown zone name"

/-- Modelled from the spec: `getLoadedItemsWithTags` resolves the catalog
items having all the given tags and fails with a ValidationError if no item
satisfies the filter. -/
def Valids.getLoadedItemsWithTags (v : Valids) (ts : List String) :
    Except String (List Item) :=
  let l := v.loadedItems.filter (fun i => i.hasAllTags ts)
  if l.isEmpty then .error "ValidationError: no item with the given tags" else .ok l

/-- Modelled from the spec: `getLoadedItemWithName` resolves the catalog
items with the given exact name (a pool, possibly of size 1) and fails if
there is none. -/
def Valids.getLoadedItemWithName (v : Valids) (n : String) :
    Except String (List Item) :=
  let l := v.loadedItems.filter (fun i => i.getName == n)
  if l.isEmpty then .error "ValidationError: no item with the given name" else .ok l

/-- The nine Condition variants of src/game/Check.py as a closed inductive;
each constructor stores exactly the fields the corresponding `__init__`
stores (`CreateCheck` additionally keeps its load-time-resolved candidate
pool `items`). -/
inductive Check where
  | nearbyCheck (state : String) (targetShort : Option String)
  | aliveCheck (aState : String)
  | aloneCheck (state : String)
  | relationCheck (relationship : String) (targetShort : String)
  | tagCheck (tag : String)
  | itemCheck (rType : String) (itemShort : String) (itemTags : List String)
  | createCheck (rType : String) (itemShort : String) (itemTags : List String)
               (items : List Item)
  | locationCheck (locName : String)
  | limitCheck (cType : String) (count : Int)
deriving DecidableEq, Repr

/-- `type(check) == AliveCheck` as a predicate on the variant. -/
def Check.isAliveCheck : Check → Bool
  | .aliveCheck _ => true
  | _ => false

/-- `type(check) == NearbyCheck` as a predicate on the variant. -/
def Check.isNearbyCheck : Check → Bool
  | .nearbyCheck _ _ => true
  | _ => false

def NearbyCheck.NEARBY : String := "nearby"

def NearbyCheck.ANYDISTANCE : String := "anydistance"

def AliveCheck.ALIVE : String := "alive"

def AliveCheck.DEAD : String := "dead"

def AloneCheck.ALONE : String := "alone"

def AloneCheck.ALLIED : String := "allied"

def RelationCheck.ALLY : String := "ally"

def RelationCheck.ENEMY : String := "enemy"

def ItemCheck.BY_TAGS : String := "item"

def ItemCheck.BY_NAME : String := "itemeq"

def CreateCheck.BY_TAGS : String := "create"

def CreateCheck.BY_NAME : String := "createeq"

def LimitCheck.TOTAL : String := "total"

def LimitCheck.PERCHAR : String := "perchar"

/-- `NearbyCheck.__init__`: with two arguments whose first is `nearby` the
target shorthand is validated and stored; otherwise the argument list is
unpacked into the single `state` field (a Python `ValueError` when the
length is not 1, modelled as an error). -/
def NearbyCheck.parse (valids : Valids) (args : List String) :
    Except String (Valids × Check) :=
  if args.length = 2 ∧ args.headD "" = NearbyCheck.NEARBY then
    match args with
    | [st, tgt] =>
        match validateCharShort tgt valids with
        | .error e => .error e
        | .ok _ => .ok (valids, Check.nearbyCheck st (some tgt))
    | _ => .error "ValueError: unpack"
  else
    match args with
    | [st] => .ok (valids, Check.nearbyCheck st none)
    | _ => .error "ValueError: unpack"

/-- `AliveCheck.__init__`: unpacks the single `aState` argument. -/
def AliveCheck.parse (valids : Valids) (args : List String) :
    Except String (Valids × Check) :=
  match args with
  | [a] => .ok (valids, Check.aliveCheck a)
  | _ => .error "ValueError: unpack"

/-- `AloneCheck.__init__`: unpacks the single `state` argument. -/
def AloneCheck.parse (valids : Valids) (args : List String) :
    Except String (Valids × Check) :=
  match args with
  | [s] => .ok (valids, Check.aloneCheck s)
  | _ => .error "ValueError: unpack"

/-- `RelationCheck.__init__`: unpacks relationship and target shorthand and
validates the latter. -/
def RelationCheck.parse (valids : Valids) (args : List String) :
    Except String (Valids × Check) :=
  match args with
  | [rel, tgt] =>
      match validateCharShort tgt valids with
      | .error e => .error e
      | .ok _ => .ok (valids, Check.relationCheck rel tgt)
  | _ => .error "ValueError: unpack"

/-- `TagCheck.__init__`: stores the tag and registers it in the registry. -/
def TagCheck.parse (valids : Valids) (args : List String) :
    Except String (Valids × Check) :=
  match args with
  | [_, tag] => .ok (addTagNameToValids tag valids, Check.tagCheck tag)
  | _ => .error "ValueError: unpack"

/-- Validates every tag of a list against the loaded-item catalog, as the
`for tag in self.itemTags` loops of `ItemCheck`/`CreateCheck` do. -/
def validateLoadedItemTags (valids : Valids) : List String → Except String Unit
  | [] => .ok ()
  | t :: ts =>
      match validateLoadedItemTag t valids with
      | .error e => .error e
      | .ok _ => validateLoadedItemTags valids ts

/-- `ItemCheck.__init__`: unpacks type, item shorthand and variadic tags,
registers the shorthand, and for the by-tags form validates each tag. -/
def ItemCheck.parse (valids : Valids) (args : List String) :
    Except String (Valids × Check) :=
  match args with
  | rType :: short :: itemTags =>
      let v := addItemShortToValids short valids
      if rType = ItemCheck.BY_TAGS then
        match validateLoadedItemTags v itemTags with
        | .error e => .error e
        | .ok _ => .ok (v, Check.itemCheck rType short itemTags)
      else .ok (v, Check.itemCheck rType short itemTags)
  | _ => .error "ValueError: unpack"

/-- The candidate-pool resolution of `CreateCheck.__init__`: by tag set for
the `create` form, by the exact name `itemTags[0]` for `createeq` (a Python
`IndexError` when there is no name argument). -/
def CreateCheck.resolvePool (v : Valids) (rType : String)
    (itemTags : List String) : Except String (List Item) :=
  if rType = CreateCheck.BY_TAGS then v.getLoadedItemsWithTags itemTags
  else
    match itemTags with
    | [] => .error "IndexError: list index out of range"
    | n :: _ => v.getLoadedItemWithName n

/-- `CreateCheck.__init__`: like `ItemCheck` but additionally resolves the
candidate pool from the catalog at load time, which must succeed or load
fails. -/
def CreateCheck.parse (valids : Valids) (args : List String) :
    Except String (Valids × Check) :=
  match args with
  | rType :: short :: itemTags =>
      let v := addItemShortToValids short valids
      if rType = CreateCheck.BY_TAGS then
        match validateLoadedItemTags v itemTags with
        | .error e => .error e
        | .ok _ =>
            match CreateCheck.resolvePool v rType itemTags with
            | .error e => .error e
            | .ok items => .ok (v, Check.createCheck rType short itemTags items)
      else
        match CreateCheck.resolvePool v rType itemTags with
        | .error e => .error e
        | .ok items => .ok (v, Check.createCheck rType short itemTags items)
  | _ => .error "ValueError: unpack"

/-- `LocationCheck.__init__`: unpacks the location name and validates it. -/
def LocationCheck.parse (valids : Valids) (args : List String) :
    Except String (Valids × Check) :=
  match args with
  | [_, loc] =>
      match validateLoadedZoneName loc valids with
      | .error e => .error e
      | .ok _ => .ok (valids, Check.locationCheck loc)
  | _ => .error "ValueError: unpack"

/-- `LimitCheck.__init__`: unpacks count type and count, validates the count
is an integer literal and converts it. -/
def LimitCheck.parse (valids : Valids) (args : List String) :
    Except String (Valids × Check) :=
  match args with
  | [_, ct, cnt] =>
      match validateIsInt cnt with
      | .error e => .error e
      | .ok _ => .ok (valids, Check.limitCheck ct ((cnt.toInt?).getD 0))
  | _ => .error "ValueError: unpack"

/-- Modelled from the spec: the loader selects the variant whose
discriminator set (`matches`) contains the token list's first token — the
classes tried in `ALLCHECKCLASSES` order, whose `matches` sets are disjoint —
and invokes that variant's constructor with the full token list and the
registry; an empty token list or an unknown discriminator fails load with an
EventPartException. -/
def constructCheck (valids : Valids) (args : List String) :
    Except String (Valids × Check) :=
  match args.head? with
  | none => .error "EventPartException: empty argument list"
  | some d =>
      if [NearbyCheck.NEARBY, NearbyCheck.ANYDISTANCE].contains d then
        NearbyCheck.parse valids args
      else if [AliveCheck.ALIVE, AliveCheck.DEAD].contains d then
        AliveCheck.parse valids args
      else if [AloneCheck.ALONE, AloneCheck.ALLIED].contains d then
        AloneCheck.parse valids args
      else if [RelationCheck.ALLY, RelationCheck.ENEMY].contains d then
        RelationCheck.parse valids args
      else if d = "tag" then TagCheck.parse valids args
      else if [ItemCheck.BY_TAGS, ItemCheck.BY_NAME].contains d then
        ItemCheck.parse valids args
      else if [CreateCheck.BY_TAGS, CreateCheck.BY_NAME].contains d then
        CreateCheck.parse valids args
      else if d = "in" then LocationCheck.parse valids args
      else if d = "limit" then LimitCheck.parse valids args
      else .error "EventPartException: unknown discriminator"

/-- Modelled from the spec: the Suite base-class `load` instantiates each
argument-token-list into exactly one Condition, in declared order, threading
the registry through the constructors. -/
def loadChecks (valids : Valids) :
    List (List String) → Except String (Valids × List Check)
  | [] => .ok (valids, [])
  | args :: rest =>
      match constructCheck valids args with
      | .error e => .error e
      | .ok (v, c) =>
          match loadChecks v rest with
          | .error e => .error e
          | .ok (v2, cs) => .ok (v2, c :: cs)

/-- `CheckSuite.load`: registers the suite's character shorthand, loads the
authored Conditions, and — when no loaded Condition is an `AliveCheck` —
inserts `AliveCheck(valids, AliveCheck.ALIVE)` at position 0. -/
def CheckSuite.load (charShort : String) (argsLists : List (List String))
    (valids : Valids) : Except String (Valids × List Check) :=
  let v := valids.addCharShort charShort
  match loadChecks v argsLists with
  | .error e => .error e
  | .ok (v2, checks) =>
      .ok (v2,
        if !(checks.any Check.isAliveCheck) then
          Check.aliveCheck AliveCheck.ALIVE :: checks
        else checks)

/-- `CheckSuite.addNearbyCheckIfNeeded`, translated exactly as written: the
guard tests for an `AliveCheck` (not a `NearbyCheck`), and the inserted
`NearbyCheck(valids, NearbyCheck.NEARBY)` takes the single-argument
constructor path, so its target shorthand is `None`. -/
def CheckSuite.addNearbyCheckIfNeeded (valids : Valids) (checks : List Check) :
    List Check :=
  if !(checks.any Check.isAliveCheck) then
    Check.nearbyCheck NearbyCheck.NEARBY none :: checks
  else checks

/-- The runtime predicate of each Condition variant, translated from the
`check` methods of src/game/Check.py.  `pick` stands for `random.choice` on
the load-time candidate pool of a `CreateCheck` (the external pseudorandom
source); binding variants return the updated state, Python exceptions
(`KeyError` on an unbound shorthand, `IndexError`, `AttributeError` on a
missing location) surface as `Except.error`. -/
def Check.eval (c : Check) (pick : List Item → Item) (char : Character)
    (st : State) : Except String (Bool × State) :=
  match c with
  | .nearbyCheck s tgt =>
      if s = NearbyCheck.NEARBY then
        match tgt with
        | none => .error "KeyError: no target shorthand"
        | some t =>
          match st.getChar t with
          | none => .error "KeyError: unbound character shorthand"
          | some target => .ok (char.isNearby target, st)
      else .ok (true, st)
  | .aliveCheck a =>
      if a = AliveCheck.ALIVE then .ok (char.isAlive, st)
      else .ok (!char.isAlive, st)
  | .aloneCheck s =>
      if s = AloneCheck.ALONE && char.isAlone then .ok (true, st)
      else if s = AloneCheck.ALLIED && !char.isAlone then .ok (true, st)
      else .ok (false, st)
  | .relationCheck rel tgt =>
      match st.getChar tgt with
      | none => .error "KeyError: unbound character shorthand"
      | some target =>
        if rel = RelationCheck.ALLY && char.isAllyOf target then .ok (true, st)
        else if rel = RelationCheck.ENEMY && !char.isAllyOf target then
          .ok (true, st)
        else .ok (false, st)
  | .tagCheck t => .ok (char.hasTag t, st)
  | .itemCheck rType short itemTags =>
      if rType = ItemCheck.BY_TAGS then
        match char.getItemByTags itemTags with
        | none => .ok (false, st)
        | some item => .ok (true, st.setItem short item)
      else
        match itemTags with
        | [] => .error "IndexError: list index out of range"
        | n :: _ =>
          match char.getItemByName n with
          | none => .ok (false, st)
          | some item => .ok (true, st.setItem short item)
  | .createCheck _ short _ items => .ok (true, st.setItem short (pick items))
  | .locationCheck loc =>
      match char.isIn loc with
      | none => .error "AttributeError: location is None"
      | some b => .ok (b, st)
  | .limitCheck ct cnt =>
      if ct = LimitCheck.PERCHAR then
        .ok (decide ((st.getTriggersFor char : Int) ≤ cnt), st)
      else .ok (decide ((st.getTotalTriggers : Int) ≤ cnt), st)

/-- `CheckSuite.checkAll`: runs every Condition against the character and
state unconditionally, in declared order, collecting the boolean results
(state mutations made by binding Conditions thread through the sequence). -/
def CheckSuite.checkAll (checks : List Check) (pick : List Item → Item)
    (char : Character) (st : State) : Except String (List Bool × State) :=
  match checks with
  | [] => .ok ([], st)
  | c :: rest =>
      match c.eval pick char st with
      | .error e => .error e
      | .ok (res, st2) =>
          match CheckSuite.checkAll rest pick char st2 with
          | .error e => .error e
          | .ok (l, st3) => .ok (res :: l, st3)

/-- Modelled from the spec: an Event exposes `getName()`, a `text` template,
`getChance() -> nonnegative integer` (0 = fallback-only),
`prepare(character, cast, state?) -> bool` and
`trigger() -> (State, list[Event])`.  `prepares` records the outcome of the
external `prepare` call for a character (its state side effects are internal
to the collaborator); `effect` is the state mutation `trigger()` performs on
the state threaded through `prepare`, and `subEvents` the candidate
sub-events `trigger()` returns. -/
inductive Event where
  | mk (name : String) (text : String) (chance : Nat)
       (prepares : Character → Bool) (effect : State → State)
       (subEvents : List Event)

def Event.getName : Event → String
  | .mk n _ _ _ _ _ => n

def Event.text : Event → String
  | .mk _ t _ _ _ _ => t

def Event.getChance : Event → Nat
  | .mk _ _ c _ _ _ => c

def Event.prepares : Event → Character → Bool
  | .mk _ _ _ p _ _ => p

def Event.effect : Event → State → State
  | .mk _ _ _ _ f _ => f

def Event.subEvents : Event → List Event
  | .mk _ _ _ _ _ s => s

/-- `Game` from src/game/Game.py (the `map` collaborator, used only by
`start`, is not modelled). -/
structure Game where
  items : List Item
  events : List Event
  tributes : List Character

/-- The partition loop of `Game.chooseFromEvents`: walks the pool in order
and, for each event whose `prepare` succeeds, either records it as the
default (chance 0, later occurrences overwrite earlier ones) or appends it
to the weighted candidates and adds its chance to the running total. -/
def partitionEvents (char : Character) :
    List Event → List Event × Nat × Option Event →
    List Event × Nat × Option Event
  | [], acc => acc
  | e :: rest, (poss, total, dflt) =>
      if e.prepares char then
        if e.getChance = 0 then partitionEvents char rest (poss, total, some e)
        else partitionEvents char rest (poss ++ [e], total + e.getChance, dflt)
      else partitionEvents char rest (poss, total, dflt)

/-- The selection walk of `Game.chooseFromEvents`: returns the first
candidate whose half-open cumulative interval
`[count, count + chance)` contains the draw, raising the
invalid-choice error when the walk falls off the end. -/
def choosePick (choice totalChance : Nat) :
    Nat → List Event → Except String Event
  | _, [] =>
      .error s!"Invalid choice when choosing from events ({choice} out of {totalChance})"
  | count, e :: rest =>
      if choice ≥ count ∧ choice < count + e.getChance then .ok e
      else choosePick choice totalChance (count + e.getChance) rest

/-- `Game.chooseFromEvents`.  An empty candidate list falls back to the full
authored library (Python `if not events`).  `choice` stands for the value
the process-wide pseudorandom source returned for
`randint(0, totalChance - 1)`; the theorems assume the randint contract
`choice ≤ totalChance - 1`. -/
def Game.chooseFromEvents (g : Game) (char : Character) (events : List Event)
    (choice : Nat) : Except String Event :=
  let events := if events.isEmpty then g.events else events
  match partitionEvents char events ([], 0, none) with
  | (possibleEvents, _totalChance, defaultEvent) =>
    if possibleEvents.isEmpty then
      match defaultEvent with
      | some d => .ok d
      | none => .error "No events matched when choosing from events"
    else choosePick choice _totalChance 0 possibleEvents

/-- The weighted-candidate list of a pool, written from the spec for
comparison with `partitionEvents`: the events whose `prepare` succeeds and
whose chance is nonzero, in pool order. -/
def weightedCandidates (char : Character) (events : List Event) : List Event :=
  events.filter (fun e => e.prepares char && !(e.getChance == 0))

/-- The total weight of a pool, written from the spec: the sum of the
chances of the weighted candidates. -/
def totalWeight (char : Character) (events : List Event) : Nat :=
  ((weightedCandidates char events).map Event.getChance).sum

/-- The retained default fallback of a pool, written from the spec plus the
overwrite behaviour of the source loop: the last prepared zero-chance
event. -/
def fallbackEvent (char : Character) (events : List Event) : Option Event :=
  (events.filter (fun e => e.prepares char && e.getChance == 0)).getLast?

theorem partitionEvents_spec (char : Character) (l : List Event) :
    ∀ poss total dflt,
    partitionEvents char l (poss, total, dflt) =
      (poss ++ weightedCandidates char l, total + totalWeight char l,
       ((fallbackEvent char l).rec dflt some : Option Event)) := by
  induction l with
  | nil =>
      intro poss total dflt
      simp [partitionEvents, weightedCandidates, totalWeight, fallbackEvent]
  | cons e rest ih =>
      intro poss total dflt
      by_cases hp : e.prepares char
      · by_cases hz : e.getChance = 0
        · have hstep : partitionEvents char (e :: rest) (poss, total, dflt) =
              partitionEvents char rest (poss, total, some e) := by
            simp [partitionEvents, hp, hz]
          have hwc : weightedCandidates char (e :: rest) =
              weightedCandidates char rest := by
            simp [weightedCandidates, hp, hz]
          have htw : totalWeight char (e :: rest) = totalWeight char rest := by
            simp [totalWeight, hwc]
          have hfb : fallbackEvent char (e :: rest) =
              ((fallbackEvent char rest).rec (some e) some : Option Event) := by
            simp only [fallbackEvent, List.filter_cons]
            rw [if_pos (by simp [hp, hz])]
            cases hrest : rest.filter
                (fun e => e.prepares char && e.getChance == 0) with
            | nil => simp [hrest]
            | cons y ys =>
                rw [List.getLast?_cons_cons]
                cases h2 : (y :: ys).getLast? with
                | none => simp [List.getLast?_eq_none_iff] at h2
                | some z => simp
          rw [hstep, ih, hwc, htw, hfb]
          cases fallbackEvent char rest <;> simp
        · have hstep : partitionEvents char (e :: rest) (poss, total, dflt) =
              partitionEvents char rest
                (poss ++ [e], total + e.getChance, dflt) := by
            simp [partitionEvents, hp, hz]
          have hwc : weightedCandidates char (e :: rest) =
              e :: weightedCandidates char rest := by
            simp [weightedCandidates, hp, hz]
          have htw : totalWeight char (e :: rest) =
              e.getChance + totalWeight char rest := by
            simp [totalWeight, hwc]
          have hfb : fallbackEvent char (e :: rest) = fallbackEvent char rest := by
            simp [fallbackEvent, List.filter_cons, hp, hz]
          rw [hstep, ih, hwc, htw, hfb]
          simp [Nat.add_assoc]
      · have hstep : partitionEvents char (e :: rest) (poss, total, dflt) =
            partitionEvents char rest (poss, total, dflt) := by
          simp [partitionEvents, hp]
        have hwc : weightedCandidates char (e :: rest) =
            weightedCandidates char rest := by
          simp [weightedCandidates, hp]
        have htw : totalWeight char (e :: rest) = totalWeight char rest := by
          simp [totalWeight, hwc]
        have hfb : fallbackEvent char (e :: rest) = fallbackEvent char rest := by
          simp [fallbackEvent, List.filter_cons, hp]
        rw [hstep, ih, hwc, htw, hfb]

/-- The cumulative weight strictly before index `i` of a weighted-candidate
list, written from the spec (`cumulativeBefore`). -/
def chanceSumTake (l : List Event) (i : Nat) : Nat :=
  ((l.take i).map Event.getChance).sum

theorem chanceSumTake_zero (l : List Event) : chanceSumTake l 0 = 0 := by
  simp [chanceSumTake]

theorem chanceSumTake_succ_cons (e : Event) (l : List Event) (i : Nat) :
    chanceSumTake (e :: l) (i + 1) = e.getChance + chanceSumTake l i := by
  simp [chanceSumTake]

theorem chanceSumTake_succ (l : List Event) (i : Nat) (h : i < l.length) :
    chanceSumTake l (i + 1) = chanceSumTake l i + (l.get ⟨i, h⟩).getChance := by
  induction l generalizing i with
  | nil => simp at h
  | cons e rest ih =>
      cases i with
      | zero => simp [chanceSumTake]
      | succ j =>
          rw [chanceSumTake_succ_cons, chanceSumTake_succ_cons,
            ih j (by simpa using h)]
          simp [Nat.add_assoc]

theorem chanceSumTake_mono (l : List Event) {i k : Nat} (h : i ≤ k) :
    chanceSumTake l i ≤ chanceSumTake l k := by
  induction l generalizing i k with
  | nil => simp [chanceSumTake]
  | cons e rest ih =>
      cases i with
      | zero => simp [chanceSumTake_zero]
      | succ j =>
          cases k with
          | zero => omega
          | succ m =>
              rw [chanceSumTake_succ_cons, chanceSumTake_succ_cons]
              exact Nat.add_le_add_left (ih (Nat.succ_le_succ_iff.mp h)) _

theorem choosePick_mem {choice totalChance : Nat} :
    ∀ {l : List Event} {count : Nat} {e : Event},
    choosePick choice totalChance count l = .ok e → e ∈ l := by
  intro l
  induction l with
  | nil => intro count e h; simp [choosePick] at h
  | cons x rest ih =>
      intro count e h
      rw [choosePick] at h
      by_cases hc : choice ≥ count ∧ choice < count + x.getChance
      · rw [if_pos hc] at h
        cases h
        exact List.mem_cons_self _ _
      · rw [if_neg hc] at h
        exact List.mem_cons_of_mem _ (ih h)

theorem choosePick_spec {choice totalChance : Nat} :
    ∀ (l : List Event) (count : Nat), count ≤ choice →
    choice < count + (l.map Event.getChance).sum →
    ∃ i, ∃ h : i < l.length,
      choosePick choice totalChance count l = .ok (l.get ⟨i, h⟩) ∧
      count + chanceSumTake l i ≤ choice ∧
      choice < count + chanceSumTake l i + (l.get ⟨i, h⟩).getChance := by
  intro l
  induction l with
  | nil => intro count hle hlt; simp at hlt; omega
  | cons x rest ih =>
      intro count hle hlt
      by_cases hc : choice < count + x.getChance
      · refine ⟨0, by simp, ?_, ?_, ?_⟩
        · rw [choosePick, if_pos ⟨hle, hc⟩]
          rfl
        · simp [chanceSumTake_zero]; omega
        · simp [chanceSumTake_zero]; omega
      · have hge : count + x.getChance ≤ choice := by omega
        have hlt2 : choice < count + x.getChance + (rest.map Event.getChance).sum := by
          simp only [List.map_cons, List.sum_cons] at hlt
          omega
        obtain ⟨i, hi, hpick, hlo, hhi⟩ := ih (count + x.getChance) hge hlt2
        refine ⟨i + 1, by simpa using Nat.succ_lt_succ hi, ?_, ?_, ?_⟩
        · rw [choosePick, if_neg (by omega)]
          simpa using hpick
        · rw [chanceSumTake_succ_cons]; omega
        · rw [chanceSumTake_succ_cons]
          simp only [List.get_cons_succ]
          omega

theorem chooseFromEvents_mem {g : Game} {char : Character} {evs : List Event}
    {choice : Nat} {e : Event} (hne : evs ≠ [])
    (h : g.chooseFromEvents char evs choice = .ok e) : e ∈ evs := by
  rw [Game.chooseFromEvents] at h
  rw [if_neg (by simpa using hne)] at h
  rw [partitionEvents_spec] at h
  simp only [List.nil_append, Nat.zero_add] at h
  by_cases hw : (weightedCandidates char evs).isEmpty
  · rw [if_pos hw] at h
    cases hfb : fallbackEvent char evs with
    | none => rw [hfb] at h; cases h
    | some d =>
        rw [hfb] at h
        cases h
        have hmem : e ∈ evs.filter (fun e => e.prepares char && e.getChance == 0) := by
          obtain ⟨hne2, heq⟩ := List.mem_getLast?_eq_getLast
            (show e ∈ (evs.filter
              (fun e => e.prepares char && e.getChance == 0)).getLast? from hfb)
          rw [heq]
          exact List.getLast_mem _
        exact List.mem_of_mem_filter hmem
  · rw [if_neg hw] at h
    exact List.mem_of_mem_filter (choosePick_mem h)

/-- `Game.trigger`: `event.trigger()` yields the mutated chain State (the
`effect` applied to the state the event was prepared with, passed here
explicitly) and the candidate sub-events; the rendered text and the result
strings are recorded, and when sub-events exist one is chosen by weighted
selection and triggered recursively with the same State, its output appended.
`draws` is the stream of values the pseudorandom source returns for the
successive `randint` calls of the chain, one per level. -/
def Game.trigger (g : Game) (char : Character) (event : Event) (st : State)
    (draws : List Nat) :
    Except String (List (String × List (Character × String))) :=
  let st2 := event.effect st
  match hsub : event.subEvents with
  | [] => .ok [(st2.getReplacedText event.text, st2.getResultStrs)]
  | s0 :: srest =>
    match hc : g.chooseFromEvents char (s0 :: srest) (draws.headD 0) with
    | .error msg => .error msg
    | .ok sub =>
      match g.trigger char sub st2 draws.tail with
      | .error msg => .error msg
      | .ok rest =>
          .ok ((st2.getReplacedText event.text, st2.getResultStrs) :: rest)
termination_by sizeOf event
decreasing_by
  have hmem : sub ∈ event.subEvents := by
    rw [hsub]
    exact chooseFromEvents_mem (by simp) hc
  have h1 : sizeOf sub < sizeOf event.subEvents := List.sizeOf_lt_of_mem hmem
  have h2 : sizeOf event.subEvents < sizeOf event := by
    cases event with
    | mk n t c p f s => simp [Event.subEvents]
  omega

/-- `Game.triggerByName`: resolves the character by `string()` and the event
by `getName()` with first-match loops, returns a one-element error text when
either lookup fails, re-checks `prepare` (called without a state, so the
chain starts from the fresh `State.init`), and returns the one-element
`Trigger failed` result when it fails. -/
def Game.triggerByName (g : Game) (charName eventName : String)
    (draws : List Nat) :
    Except String (List (String × List (Character × String))) :=
  match g.tributes.find? (fun t => t.string == charName) with
  | none => .ok [(s!"unable to find character named {charName}", [])]
  | some char =>
    match g.events.find? (fun e => e.getName == eventName) with
    | none => .ok [(s!"unable to find event named {eventName}", [])]
    | some event =>
      if event.prepares char then g.trigger char event State.init draws
      else .ok [("Trigger failed", [])]

/-- The trigger chains of the engine, written from the spec: a chain from
`event` and state `st` is the event paired with its mutated state, followed —
when the event spawns sub-events — by the chain of the sub-event that
weighted selection picks, continued from the same mutated State. -/
inductive Chain (g : Game) (char : Character) :
    Event → State → List Nat → List (Event × State) → Prop where
  | leaf {event : Event} {st : State} {draws : List Nat}
      (hsub : event.subEvents = []) :
      Chain g char event st draws [(event, event.effect st)]
  | node {event sub : Event} {st : State} {draws : List Nat}
      {rest : List (Event × State)}
      (hsub : event.subEvents ≠ [])
      (hchoose : g.chooseFromEvents char event.subEvents (draws.headD 0) =
        .ok sub)
      (hrest : Chain g char sub (event.effect st) draws.tail rest) :
      Chain g char event st draws ((event, event.effect st) :: rest)

/-- The alliance store of src/game/Character.py.  A Python alliance is a
single shared mutable `list[Character]`; sharing is modelled by a heap of
collections indexed by reference ids: `ref c` is the id of the list object
character `c`'s `alliance` attribute points at, `heap r` its contents
(character names — the cast members are assumed pairwise distinguishable, so
`in`/`remove`, which use `__eq__`, compare by name), and `next` the next
fresh id (every live id is below it, so a fresh empty list never aliases an
existing one). -/
structure AllianceWorld where
  ref : String → Nat
  heap : Nat → List String
  next : Nat

/-- `Character.isAlone` over the store: `len(self.alliance) == 0`. -/
def AllianceWorld.isAlone (w : AllianceWorld) (c : String) : Bool :=
  (w.heap (w.ref c)).isEmpty

/-- `Character.isAllyOf` over the store: `other in self.alliance`. -/
def AllianceWorld.isAllyOf (w : AllianceWorld) (c other : String) : Bool :=
  (w.heap (w.ref c)).contains other

/-- `Character.getAlliance` over the store. -/
def AllianceWorld.getAlliance (w : AllianceWorld) (c : String) : List String :=
  w.heap (w.ref c)

/-- `Character.joinAlliance(alliance)`: rebinds the character's `alliance`
attribute to the passed shared collection `r` and appends the character to
it (visible through every reference to `r`). -/
def AllianceWorld.joinAlliance (w : AllianceWorld) (c : String) (r : Nat) :
    AllianceWorld :=
  { w with
    ref := fun x => if x = c then r else w.ref x,
    heap := fun x => if x = r then w.heap r ++ [c] else w.heap x }

/-- `Character.leaveAlliance`: a no-op when alone; otherwise removes the
character from the shared collection (`list.remove` drops the first
occurrence; under the invariant the character occurs exactly once, where
Python `remove` and `List.erase` agree) and rebinds the character to a fresh
empty list. -/
def AllianceWorld.leaveAlliance (w : AllianceWorld) (c : String) :
    AllianceWorld :=
  if (w.heap (w.ref c)).isEmpty then w
  else
    { ref := fun x => if x = c then w.next else w.ref x,
      heap := fun x =>
        if x = w.next then []
        else if x = w.ref c then (w.heap (w.ref c)).erase c
        else w.heap x,
      next := w.next + 1 }

/-- The alliance invariant over a cast of character names: collections hold
only cast members, each of whom references the collection holding them (so a
non-empty collection is referenced by every member and by no non-member),
each referenced non-empty collection contains its referencer, empty
collections are unshared, collections are duplicate-free, and all live
reference ids lie below `next`, beyond which the heap is empty. -/
def AllianceInv (cast : List String) (w : AllianceWorld) : Prop :=
  (∀ c, c ∈ cast → w.ref c < w.next) ∧
  (∀ r, w.next ≤ r → w.heap r = []) ∧
  (∀ r, (w.heap r).Nodup) ∧
  (∀ r m, m ∈ w.heap r → m ∈ cast ∧ w.ref m = r) ∧
  (∀ c, c ∈ cast → w.heap (w.ref c) ≠ [] → c ∈ w.heap (w.ref c)) ∧
  (∀ c d, c ∈ cast → d ∈ cast → w.ref c = w.ref d → c ≠ d →
    w.heap (w.ref c) ≠ [])

/-- A successful `find?` returns the first element satisfying the predicate:
the element at some index `i`, satisfying `p`, with every earlier element
failing `p`. -/
theorem find?_first_spec {α : Type} {p : α → Bool} :
    ∀ {l : List α} {a : α}, l.find? p = some a →
    ∃ i, ∃ h : i < l.length, a = l.get ⟨i, h⟩ ∧ p a = true ∧
      ∀ j, ∀ hj : j < l.length, j < i → p (l.get ⟨j, hj⟩) = false := by
  intro l
  induction l with
  | nil => intro a h; simp at h
  | cons x rest ih =>
      intro a h
      by_cases hx : p x
      · rw [List.find?_cons_of_pos _ hx] at h
        cases h
        exact ⟨0, by simp, rfl, hx, fun j hj hj0 => by omega⟩
      · rw [List.find?_cons_of_neg _ hx] at h
        obtain ⟨i, hi, ha, hpa, hfirst⟩ := ih h
        refine ⟨i + 1, by simpa using Nat.succ_lt_succ hi, by simpa using ha,
          hpa, ?_⟩
        intro j hj hji
        cases j with
        | zero => simpa using hx
        | succ k =>
            have hk : k < rest.length := by simp at hj; omega
            have := hfirst k hk (by omega)
            simpa using this

/-- An empty identifier registry, used for concrete instances. -/
def emptyValids : Valids :=
  { charShorts := [], itemShorts := [], tagNames := [], zoneNames := [],
    loadedItems := [] }

/-- A concrete item for witnesses. -/
def itemSword : Item := { name := "sword", tags := ["weapon"] }

/-- A concrete pick function (stands for `random.choice`). -/
def pickFirst (l : List Item) : Item := l.headD itemSword

/-- A concrete character for witnesses: owns `itemSword`, no alliance. -/
def charA : Character :=
  .mk "ash" (some "http://example.test/a.png") "they" "them" "their" "theirs"
    "themself" true [itemSword] ["running"] none [] true 1 0

/-- `charA` with only its image source changed. -/
def charB : Character :=
  .mk "ash" none "they" "them" "their" "theirs"
    "themself" true [itemSword] ["running"] none [] true 1 0

/-- `charA` with only its alliance changed (one member instead of none). -/
def charC : Character :=
  .mk "ash" (some "http://example.test/a.png") "they" "them" "their" "theirs"
    "themself" true [itemSword] ["running"] none [charB] true 1 0

/-- C6: for every integer ceiling `C`, `LimitCheck.check` returns true iff
the relevant counter — `state.getTriggersFor(char)` for `perchar`,
`state.getTotalTriggers()` for `total` — is less than or equal to `C`
(inclusive bound); in particular a `limit total 3` check passes exactly when
the total trigger count is at most 3, i.e. at 0, 1, 2, 3 and not at 4. -/
theorem limitCheck_inclusive_bound (C : Int) (char : Character) (st : State)
    (pick : List Item → Item) :
    (Check.limitCheck LimitCheck.PERCHAR C).eval pick char st =
      .ok (decide ((st.getTriggersFor char : Int) ≤ C), st) ∧
    (Check.limitCheck LimitCheck.TOTAL C).eval pick char st =
      .ok (decide ((st.getTotalTriggers : Int) ≤ C), st) ∧
    ((Check.limitCheck LimitCheck.TOTAL 3).eval pick char st =
        .ok (true, st) ↔ st.getTotalTriggers ≤ 3) := by
  refine ⟨?_, ?_, ?_⟩
  · simp [Check.eval, LimitCheck.PERCHAR]
  · simp [Check.eval, LimitCheck.TOTAL, LimitCheck.PERCHAR]
  · simp [Check.eval, LimitCheck.TOTAL, LimitCheck.PERCHAR]

/-- Witness for C6 at a concrete state with 3 total triggers: the inclusive
bound accepts the count equal to the ceiling. -/
theorem limitCheck_inclusive_bound_witness :
    (Check.limitCheck LimitCheck.TOTAL 3).eval pickFirst charA
        { State.init with totalTriggers := 3 } =
      .ok (true, { State.init with totalTriggers := 3 }) :=
  (limitCheck_inclusive_bound 3 charA
    { State.init with totalTriggers := 3 } pickFirst).2.2.mpr (by decide)

/-- C7: an `item` (all-tags) or `itemeq` (exact-name) Condition returns
false and leaves the state unmodified when no inventory item matches, and
otherwise binds exactly the first matching inventory item into the state
under the declared item slot and returns true. -/
theorem itemCheck_binding (short : String) (tags : List String) (n : String)
    (restTags : List String) (char : Character) (st : State)
    (pick : List Item → Item) :
    ((∀ it ∈ char.items, it.hasAllTags tags = false) →
      (Check.itemCheck ItemCheck.BY_TAGS short tags).eval pick char st =
        .ok (false, st)) ∧
    (∀ it, char.getItemByTags tags = some it →
      (Check.itemCheck ItemCheck.BY_TAGS short tags).eval pick char st =
        .ok (true, st.setItem short it) ∧
      (st.setItem short it).getItem short = some it ∧
      it.hasAllTags tags = true ∧
      ∃ i, ∃ h : i < char.items.length, it = char.items.get ⟨i, h⟩ ∧
        ∀ j, ∀ hj : j < char.items.length, j < i →
          (char.items.get ⟨j, hj⟩).hasAllTags tags = false) ∧
    ((∀ it ∈ char.items, (it.getName == n) = false) →
      (Check.itemCheck ItemCheck.BY_NAME short (n :: restTags)).eval pick char
          st = .ok (false, st)) ∧
    (∀ it, char.getItemByName n = some it →
      (Check.itemCheck ItemCheck.BY_NAME short (n :: restTags)).eval pick char
          st = .ok (true, st.setItem short it) ∧
      (st.setItem short it).getItem short = some it ∧
      (it.getName == n) = true ∧
      ∃ i, ∃ h : i < char.items.length, it = char.items.get ⟨i, h⟩ ∧
        ∀ j, ∀ hj : j < char.items.length, j < i →
          ((char.items.get ⟨j, hj⟩).getName == n) = false) := by
  refine ⟨?_, ?_, ?_, ?_⟩
  · intro hall
    have hnone : char.getItemByTags tags = none :=
      List.find?_eq_none.mpr (fun it hit => by simp [hall it hit])
    simp [Check.eval, ItemCheck.BY_TAGS, hnone]
  · intro it hit
    obtain ⟨i, hi, ha, hpa, hfirst⟩ := find?_first_spec hit
    refine ⟨by simp [Check.eval, ItemCheck.BY_TAGS, hit], ?_, hpa,
      i, hi, ha, fun j hj hji => by simpa using hfirst j hj hji⟩
    simp [State.setItem, State.getItem, List.lookup]
  · intro hall
    have hnone : char.getItemByName n = none :=
      List.find?_eq_none.mpr (fun it hit => by simp [hall it hit])
    simp [Check.eval, ItemCheck.BY_NAME, ItemCheck.BY_TAGS, hnone]
  · intro it hit
    obtain ⟨i, hi, ha, hpa, hfirst⟩ := find?_first_spec hit
    refine ⟨by simp [Check.eval, ItemCheck.BY_NAME, ItemCheck.BY_TAGS, hit],
      ?_, hpa, i, hi, ha, fun j hj hji => by simpa using hfirst j hj hji⟩
    simp [State.setItem, State.getItem, List.lookup]

/-- Witness for C7: against a character owning `itemSword`, the by-tags
Condition binds exactly that item and succeeds, and against an
empty-inventory character the by-name Condition fails leaving the state as
it was. -/
theorem itemCheck_binding_witness :
    ((Check.itemCheck ItemCheck.BY_TAGS "x" ["weapon"]).eval pickFirst charA
        State.init = .ok (true, State.init.setItem "x" itemSword) ∧
      (State.init.setItem "x" itemSword).getItem "x" = some itemSword) ∧
    (Check.itemCheck ItemCheck.BY_NAME "x" ["axe"]).eval pickFirst charA
        State.init = .ok (false, State.init) :=
  ⟨⟨((itemCheck_binding "x" ["weapon"] "axe" [] charA State.init
      pickFirst).2.1 itemSword rfl).1,
    ((itemCheck_binding "x" ["weapon"] "axe" [] charA State.init
      pickFirst).2.1 itemSword rfl).2.1⟩,
    (itemCheck_binding "x" ["weapon"] "axe" [] charA State.init
      pickFirst).2.2.1 (by decide)⟩

/-- C4: evidence of the code defect in `addNearbyCheckIfNeeded` — the guard
tests for an `AliveCheck` instead of a `NearbyCheck`, so a suite holding only
the implicit `AliveCheck` (the state of every suite after `load`) has no
Proximity condition yet is left unchanged, while a suite holding a
`NearbyCheck` but no `AliveCheck` receives a second, target-less
`NearbyCheck`. -/
theorem addNearbyCheck_wrong_guard :
    CheckSuite.addNearbyCheckIfNeeded emptyValids
        [Check.aliveCheck AliveCheck.ALIVE] =
      [Check.aliveCheck AliveCheck.ALIVE] ∧
    (Check.aliveCheck AliveCheck.ALIVE).isNearbyCheck = false ∧
    CheckSuite.addNearbyCheckIfNeeded emptyValids
        [Check.nearbyCheck NearbyCheck.NEARBY (some "b")] =
      [Check.nearbyCheck NearbyCheck.NEARBY none,
       Check.nearbyCheck NearbyCheck.NEARBY (some "b")] ∧
    (Check.nearbyCheck NearbyCheck.NEARBY (some "b")).isNearbyCheck = true := by
  refine ⟨by decide, by decide, by decide, by decide⟩

/-- `charB` with an alliance of one member: differs from `charA` in both
image source and alliance. -/
def charE : Character :=
  .mk "ash" none "they" "them" "their" "theirs"
    "themself" true [itemSword] ["running"] none [charB] true 1 0

/-- A character with the given alliance in place of its own, all other
fields unchanged. -/
def Character.withAlliance (c : Character) (al : List Character) : Character :=
  match c with
  | .mk n i s o p1 p2 f pl it t l _ av ag rs =>
      .mk n i s o p1 p2 f pl it t l al av ag rs

/-- C9 counterexample: `charA` and `charE` are identical in name, pronoun
profile, items, tags, location and liveness and differ in alliance size
(0 versus 1), yet `__eq__` returns false — it also compares the image
source, a field the claim excludes from the comparison. -/
theorem characterEq_counterexample :
    charA.name = charE.name ∧ charA.subj = charE.subj ∧
    charA.obj = charE.obj ∧ charA.plur1 = charE.plur1 ∧
    charA.plur2 = charE.plur2 ∧ charA.flex = charE.flex ∧
    charA.plural = charE.plural ∧ charA.items = charE.items ∧
    charA.tags = charE.tags ∧ charA.location = charE.location ∧
    charA.alive = charE.alive ∧
    charA.alliance.length = 0 ∧ charE.alliance.length = 1 ∧
    charA.pyEq charE = false := by
  refine ⟨rfl, rfl, rfl, rfl, rfl, rfl, rfl, rfl, rfl, rfl, rfl, rfl, rfl, ?_⟩
  decide

/-- C9 (amended): `__eq__` holds exactly when name, image source, the
pronoun profile, items, tags, location and liveness all agree; equal
characters have equal hash keys (the hash covers name, image source and
pronoun profile only); and both are unchanged by replacing the alliance, so
characters identical in all compared fields but with different alliance
contents or sizes are equal and hash equally. -/
theorem characterEq_fields (a b : Character) (al : List Character) :
    (a.pyEq b = true ↔
      (a.name = b.name ∧ a.imgSrc = b.imgSrc ∧ a.subj = b.subj ∧
       a.obj = b.obj ∧ a.plur1 = b.plur1 ∧ a.plur2 = b.plur2 ∧
       a.flex = b.flex ∧ a.plural = b.plural ∧ a.items = b.items ∧
       a.tags = b.tags ∧ a.location = b.location ∧ a.alive = b.alive)) ∧
    (a.pyEq b = true → a.hashKey = b.hashKey) ∧
    a.pyEq (b.withAlliance al) = a.pyEq b ∧
    (b.withAlliance al).hashKey = b.hashKey := by
  have hiff : a.pyEq b = true ↔
      (a.name = b.name ∧ a.imgSrc = b.imgSrc ∧ a.subj = b.subj ∧
       a.obj = b.obj ∧ a.plur1 = b.plur1 ∧ a.plur2 = b.plur2 ∧
       a.flex = b.flex ∧ a.plural = b.plural ∧ a.items = b.items ∧
       a.tags = b.tags ∧ a.location = b.location ∧ a.alive = b.alive) := by
    simp [Character.pyEq, Bool.and_eq_true]
    tauto
  refine ⟨hiff, ?_, ?_, ?_⟩
  · intro h
    obtain ⟨h1, h2, h3, h4, h5, h6, h7, h8, _⟩ := hiff.mp h
    simp [Character.hashKey, h1, h2, h3, h4, h5, h6, h7, h8]
  · cases b
    rfl
  · cases b
    rfl

/-- Witness for C9 at `charA` and `charC` (identical fields, alliances of
size 0 and 1): equal and hash-equal. -/
theorem characterEq_fields_witness :
    charA.pyEq charC = true ∧ charA.hashKey = charC.hashKey :=
  ⟨(characterEq_fields charA charC []).1.mpr
      ⟨rfl, rfl, rfl, rfl, rfl, rfl, rfl, rfl, rfl, rfl, rfl, rfl⟩,
    (characterEq_fields charA charC []).2.1
      ((characterEq_fields charA charC []).1.mpr
        ⟨rfl, rfl, rfl, rfl, rfl, rfl, rfl, rfl, rfl, rfl, rfl, rfl⟩)⟩

/-- A sub-event-free concrete event for witnesses. -/
def evLeaf : Event := .mk "feast" "A feast." 1 (fun _ => true) (fun st => st) []

/-- A concrete game for witnesses: one tribute, one event. -/
def gameW : Game :=
  { items := [itemSword], events := [evLeaf], tributes := [charA] }

/-- C10: `triggerByName` resolves the character and the event by exact
string match, first match in cast order and library order; an unmatched name
yields a one-element descriptive error result rather than raising; when both
resolve but `prepare` fails it yields the one-element `Trigger failed`
result; and only when `prepare` succeeds does it delegate to `trigger`. -/
theorem triggerByName_resolution (g : Game) (charName eventName : String)
    (draws : List Nat) :
    (g.tributes.find? (fun t => t.string == charName) = none →
      g.triggerByName charName eventName draws =
        .ok [(s!"unable to find character named {charName}", [])]) ∧
    (∀ char, g.tributes.find? (fun t => t.string == charName) = some char →
      (∃ i, ∃ h : i < g.tributes.length, char = g.tributes.get ⟨i, h⟩ ∧
        (char.string == charName) = true ∧
        ∀ j, ∀ hj : j < g.tributes.length, j < i →
          ((g.tributes.get ⟨j, hj⟩).string == charName) = false) ∧
      (g.events.find? (fun e => e.getName == eventName) = none →
        g.triggerByName charName eventName draws =
          .ok [(s!"unable to find event named {eventName}", [])]) ∧
      (∀ event, g.events.find? (fun e => e.getName == eventName) = some event →
        (∃ i, ∃ h : i < g.events.length, event = g.events.get ⟨i, h⟩ ∧
          (event.getName == eventName) = true ∧
          ∀ j, ∀ hj : j < g.events.length, j < i →
            ((g.events.get ⟨j, hj⟩).getName == eventName) = false) ∧
        (event.prepares char = false →
          g.triggerByName charName eventName draws =
            .ok [("Trigger failed", [])]) ∧
        (event.prepares char = true →
          g.triggerByName charName eventName draws =
            g.trigger char event State.init draws))) := by
  refine ⟨?_, ?_⟩
  · intro h
    simp [Game.triggerByName, h]
  · intro char hchar
    refine ⟨find?_first_spec hchar, ?_, ?_⟩
    · intro h
      simp [Game.triggerByName, hchar, h]
    · intro event hevent
      refine ⟨find?_first_spec hevent, ?_, ?_⟩
      · intro h
        simp [Game.triggerByName, hchar, hevent, h]
      · intro h
        simp [Game.triggerByName, hchar, hevent, h]

/-- Witness for C10 at `gameW`: the cast name `Ash` (the capitalized form
`string()` produces) and event name `feast` resolve to `charA` and `evLeaf`,
whose always-true `prepare` delegates to `trigger`; an unknown cast name
yields the one-element error text. -/
theorem triggerByName_resolution_witness :
    gameW.triggerByName "Ash" "feast" [] =
      gameW.trigger charA evLeaf State.init [] ∧
    gameW.triggerByName "Zed" "feast" [] =
      .ok [("unable to find character named Zed", [])] :=
  ⟨((((triggerByName_resolution gameW "Ash" "feast" []).2 charA
      rfl).2.2 evLeaf rfl).2.2 rfl),
    (triggerByName_resolution gameW "Zed" "feast" []).1 rfl⟩

/-- C1: when at least one pool event passes `prepare` with nonzero chance,
`chooseFromEvents`, fed a draw in `[0, totalWeight)` (the randint contract),
returns the event of the weighted-candidate list whose half-open cumulative
interval `[cumulativeBefore, cumulativeBefore + chance)` contains the draw —
the first such event, every earlier candidate's interval lying wholly below
the draw — and that event passed `prepare` with nonzero chance, so no
prepared zero-chance fallback is ever returned. -/
theorem chooseFromEvents_weighted_selection (g : Game) (char : Character)
    (events : List Event) (choice : Nat) (hne : events ≠ [])
    (hw : weightedCandidates char events ≠ [])
    (hchoice : choice < totalWeight char events) :
    ∃ i, ∃ h : i < (weightedCandidates char events).length,
      g.chooseFromEvents char events choice =
        .ok ((weightedCandidates char events).get ⟨i, h⟩) ∧
      chanceSumTake (weightedCandidates char events) i ≤ choice ∧
      choice < chanceSumTake (weightedCandidates char events) i +
        ((weightedCandidates char events).get ⟨i, h⟩).getChance ∧
      (∀ j, ∀ hj : j < (weightedCandidates char events).length, j < i →
        chanceSumTake (weightedCandidates char events) j +
          ((weightedCandidates char events).get ⟨j, hj⟩).getChance ≤ choice) ∧
      ((weightedCandidates char events).get ⟨i, h⟩).prepares char = true ∧
      ((weightedCandidates char events).get ⟨i, h⟩).getChance ≠ 0 ∧
      (∀ e ∈ events, e.prepares char = true → e.getChance = 0 →
        g.chooseFromEvents char events choice ≠ .ok e) := by
  have hsum : ((weightedCandidates char events).map Event.getChance).sum =
      totalWeight char events := rfl
  obtain ⟨i, hi, hpick, hlo, hhi⟩ :=
    @choosePick_spec choice (totalWeight char events)
      (weightedCandidates char events) 0 (Nat.zero_le _)
      (by rw [hsum]; omega)
  have hchoose : g.chooseFromEvents char events choice =
      .ok ((weightedCandidates char events).get ⟨i, hi⟩) := by
    rw [Game.chooseFromEvents, if_neg (by simpa using hne)]
    rw [partitionEvents_spec]
    simp only [List.nil_append, Nat.zero_add]
    rw [if_neg (by simpa using hw)]
    exact hpick
  have hmemW : (weightedCandidates char events).get ⟨i, hi⟩ ∈
      weightedCandidates char events := List.get_mem _ _ _
  have hprops := List.mem_filter.mp hmemW
  have hprep : ((weightedCandidates char events).get ⟨i, hi⟩).prepares char =
      true := by
    have := hprops.2
    simp only [Bool.and_eq_true] at this
    exact this.1
  have hnz : ((weightedCandidates char events).get ⟨i, hi⟩).getChance ≠ 0 := by
    have := hprops.2
    simp only [Bool.and_eq_true, Bool.not_eq_eq_eq_not, Bool.not_true,
      beq_eq_false_iff_ne] at this
    exact this.2
  refine ⟨i, hi, hchoose, by omega, by omega, ?_, hprep, hnz, ?_⟩
  · intro j hj hji
    have hsucc := chanceSumTake_succ (weightedCandidates char events) j hj
    have hmono := chanceSumTake_mono (weightedCandidates char events)
      (show j + 1 ≤ i by omega)
    omega
  · intro e hmem hp hz heq
    rw [hchoose] at heq
    have : (weightedCandidates char events).get ⟨i, hi⟩ = e :=
      by injection heq
    rw [this] at hnz
    exact hnz hz

/-- A prepared weight-1 event used in concrete pools. -/
def evA : Event := .mk "brook" "A drink." 1 (fun _ => true) (fun st => st) []

/-- A prepared weight-3 event used in concrete pools. -/
def evB : Event := .mk "hunt" "A hunt." 3 (fun _ => true) (fun st => st) []

/-- An event whose `prepare` always fails. -/
def evNoPrep : Event := .mk "never" "No." 1 (fun _ => false) (fun st => st) []

/-- A prepared zero-weight fallback event. -/
def evFallback : Event := .mk "rest" "A rest." 0 (fun _ => true) (fun st => st) []

/-- Witness for C1 on the pool `[evA (weight 1), evB (weight 3)]` with draw
2: selection is defined and lands on a prepared nonzero-weight candidate. -/
theorem chooseFromEvents_weighted_selection_witness :
    ∃ i, ∃ h : i < (weightedCandidates charA [evA, evB]).length,
      gameW.chooseFromEvents charA [evA, evB] 2 =
        .ok ((weightedCandidates charA [evA, evB]).get ⟨i, h⟩) ∧
      chanceSumTake (weightedCandidates charA [evA, evB]) i ≤ 2 ∧
      2 < chanceSumTake (weightedCandidates charA [evA, evB]) i +
        ((weightedCandidates charA [evA, evB]).get ⟨i, h⟩).getChance ∧
      (∀ j, ∀ hj : j < (weightedCandidates charA [evA, evB]).length, j < i →
        chanceSumTake (weightedCandidates charA [evA, evB]) j +
          ((weightedCandidates charA [evA, evB]).get ⟨j, hj⟩).getChance ≤ 2) ∧
      ((weightedCandidates charA [evA, evB]).get ⟨i, h⟩).prepares charA =
        true ∧
      ((weightedCandidates charA [evA, evB]).get ⟨i, h⟩).getChance ≠ 0 ∧
      (∀ e ∈ [evA, evB], e.prepares charA = true → e.getChance = 0 →
        gameW.chooseFromEvents charA [evA, evB] 2 ≠ .ok e) :=
  chooseFromEvents_weighted_selection gameW charA [evA, evB] 2
    (List.cons_ne_nil _ _) (List.cons_ne_nil _ _) (by decide)

/-- C5: `chooseFromEvents` raises the fatal no-applicable-event error
exactly when no pool event passes `prepare` with nonzero chance and no
prepared zero-chance fallback exists (equivalently, when no pool event
passes `prepare` at all); any raised error carries that message, there is no
retry path, and when only the fallback is prepared it is returned instead of
raising. -/
theorem chooseFromEvents_fatal_error (g : Game) (char : Character)
    (events : List Event) (choice : Nat) (hne : events ≠ [])
    (hchoice : weightedCandidates char events ≠ [] →
      choice < totalWeight char events) :
    ((∃ msg, g.chooseFromEvents char events choice = .error msg) ↔
      (weightedCandidates char events = [] ∧
       fallbackEvent char events = none)) ∧
    (∀ msg, g.chooseFromEvents char events choice = .error msg →
      msg = "No events matched when choosing from events") ∧
    ((weightedCandidates char events = [] ∧
      fallbackEvent char events = none) ↔
      ∀ e ∈ events, e.prepares char = false) ∧
    (weightedCandidates char events = [] →
      ∀ d, fallbackEvent char events = some d →
        g.chooseFromEvents char events choice = .ok d ∧
        d.getChance = 0 ∧ d.prepares char = true ∧ d ∈ events) := by
  have hunfold : g.chooseFromEvents char events choice =
      (if (weightedCandidates char events).isEmpty then
        match ((fallbackEvent char events).rec none some : Option Event) with
        | some d => .ok d
        | none => .error "No events matched when choosing from events"
      else choosePick choice (totalWeight char events) 0
        (weightedCandidates char events)) := by
    rw [Game.chooseFromEvents, if_neg (by simpa using hne)]
    rw [partitionEvents_spec]
    simp only [List.nil_append, Nat.zero_add]
  have hWF : (weightedCandidates char events = [] ∧
      fallbackEvent char events = none) ↔
      ∀ e ∈ events, e.prepares char = false := by
    constructor
    · intro ⟨hW, hF⟩ e hmem
      by_contra hp
      have hp2 : e.prepares char = true := by
        cases hpe : e.prepares char
        · exact absurd hpe hp
        · rfl
      by_cases hz : e.getChance = 0
      · have : e ∈ events.filter
            (fun e => e.prepares char && e.getChance == 0) :=
          List.mem_filter.mpr ⟨hmem, by simp [hp2, hz]⟩
        rw [fallbackEvent, List.getLast?_eq_none_iff] at hF
        rw [hF] at this
        simp at this
      · have : e ∈ weightedCandidates char events :=
          List.mem_filter.mpr ⟨hmem, by simp [hp2, hz]⟩
        rw [hW] at this
        simp at this
    · intro hall
      constructor
      · rw [weightedCandidates, List.filter_eq_nil_iff]
        intro e hmem
        simp [hall e hmem]
      · rw [fallbackEvent, List.getLast?_eq_none_iff, List.filter_eq_nil_iff]
        intro e hmem
        simp [hall e hmem]
  refine ⟨?_, ?_, hWF, ?_⟩
  · constructor
    · rintro ⟨msg, hmsg⟩
      rw [hunfold] at hmsg
      by_cases hw : (weightedCandidates char events).isEmpty
      · rw [if_pos hw] at hmsg
        cases hfb : fallbackEvent char events with
        | some d => rw [hfb] at hmsg; cases hmsg
        | none =>
            exact ⟨by simpa using hw, rfl⟩
      · rw [if_neg hw] at hmsg
        have hwne : weightedCandidates char events ≠ [] := by
          simpa using hw
        obtain ⟨i, hi, hpick, _, _⟩ :=
          @choosePick_spec choice (totalWeight char events)
            (weightedCandidates char events) 0 (Nat.zero_le _)
            (by have h2 := hchoice hwne
                have hsum : ((weightedCandidates char events).map
                    Event.getChance).sum = totalWeight char events := rfl
                rw [hsum]; omega)
        rw [hpick] at hmsg
        cases hmsg
    · rintro ⟨hW, hF⟩
      refine ⟨"No events matched when choosing from events", ?_⟩
      rw [hunfold, if_pos (by simp [hW]), hF]
  · intro msg hmsg
    rw [hunfold] at hmsg
    by_cases hw : (weightedCandidates char events).isEmpty
    · rw [if_pos hw] at hmsg
      cases hfb : fallbackEvent char events with
      | some d => rw [hfb] at hmsg; cases hmsg
      | none =>
          rw [hfb] at hmsg
          injection hmsg with h
          exact h.symm
    · rw [if_neg hw] at hmsg
      have hwne : weightedCandidates char events ≠ [] := by
        simpa using hw
      obtain ⟨i, hi, hpick, _, _⟩ :=
        @choosePick_spec choice (totalWeight char events)
          (weightedCandidates char events) 0 (Nat.zero_le _)
          (by have h2 := hchoice hwne
              have hsum : ((weightedCandidates char events).map
                  Event.getChance).sum = totalWeight char events := rfl
              rw [hsum]; omega)
      rw [hpick] at hmsg
      cases hmsg
  · intro hW d hd
    have hmemf : d ∈ events.filter
        (fun e => e.prepares char && e.getChance == 0) := by
      obtain ⟨hne2, heq⟩ := List.mem_getLast?_eq_getLast
        (show d ∈ (events.filter
          (fun e => e.prepares char && e.getChance == 0)).getLast? from hd)
      rw [heq]
      exact List.getLast_mem _
    have hprops := List.mem_filter.mp hmemf
    have hpz : d.prepares char = true ∧ d.getChance = 0 := by
      have := hprops.2
      simp only [Bool.and_eq_true, beq_iff_eq] at this
      exact this
    refine ⟨?_, hpz.2, hpz.1, hprops.1⟩
    rw [hunfold, if_pos (by simp [hW]), hd]

/-- Witness for C5: on a pool where nothing prepares the call errors with
the fatal message, and on a pool where only the zero-weight fallback
prepares, the fallback is returned instead. -/
theorem chooseFromEvents_fatal_error_witness :
    (∃ msg, gameW.chooseFromEvents charA [evNoPrep] 0 = .error msg) ∧
    gameW.chooseFromEvents charA [evNoPrep, evFallback] 0 = .ok evFallback :=
  ⟨(chooseFromEvents_fatal_error gameW charA [evNoPrep] 0
      (List.cons_ne_nil _ _) (fun hw => absurd rfl hw)).1.mpr ⟨rfl, rfl⟩,
    ((chooseFromEvents_fatal_error gameW charA [evNoPrep, evFallback] 0
      (List.cons_ne_nil _ _) (fun hw => absurd rfl hw)).2.2.2 rfl
      evFallback rfl).1⟩

theorem trigger_eq_nil {g : Game} {char : Character} {event : Event}
    {st : State} {draws : List Nat} (h : event.subEvents = []) :
    g.trigger char event st draws =
      .ok [((event.effect st).getReplacedText event.text,
        (event.effect st).getResultStrs)] := by
  rw [Game.trigger]
  split
  · rfl
  · next s0 srest hsub =>
      rw [h] at hsub
      cases hsub

theorem trigger_eq_cons {g : Game} {char : Character} {event : Event}
    {st : State} {draws : List Nat} {s0 : Event} {srest : List Event}
    (h : event.subEvents = s0 :: srest) :
    g.trigger char event st draws =
      (match g.chooseFromEvents char (s0 :: srest) (draws.headD 0) with
       | .error msg => .error msg
       | .ok sub =>
         match g.trigger char sub (event.effect st) draws.tail with
         | .error msg => .error msg
         | .ok rest =>
             .ok (((event.effect st).getReplacedText event.text,
               (event.effect st).getResultStrs) :: rest)) := by
  rw [Game.trigger]
  split
  · next hsub =>
      rw [h] at hsub
      cases hsub
  · next a b hsub =>
      rw [h] at hsub
      injection hsub with h1 h2
      subst h1
      subst h2
      split
      · next msg heq => rw [heq]
      · next sub heq => rw [heq]

theorem chain_props {g : Game} {char : Character} :
    ∀ {event : Event} {st : State} {draws : List Nat}
      {chain : List (Event × State)},
    Chain g char event st draws chain →
    chain ≠ [] ∧ chain.head? = some (event, event.effect st) ∧
    (∀ i, ∀ hi : i + 1 < chain.length,
      (chain.get ⟨i + 1, hi⟩).1 ∈
        (chain.get ⟨i, by omega⟩).1.subEvents ∧
      (chain.get ⟨i + 1, hi⟩).2 =
        (chain.get ⟨i + 1, hi⟩).1.effect (chain.get ⟨i, by omega⟩).2) := by
  intro event st draws chain h
  induction h with
  | leaf hsub =>
      refine ⟨by simp, by simp, ?_⟩
      intro i hi
      simp at hi
  | node hsub hchoose hrest ih =>
      obtain ⟨hne, hhead, hstep⟩ := ih
      refine ⟨by simp, by simp, ?_⟩
      intro i hi
      rename_i event2 sub st2 draws2 rest
      cases i with
      | zero =>
          cases rest with
          | nil => simp at hne
          | cons p prest =>
              simp only [List.head?_cons, Option.some.injEq] at hhead
              subst hhead
              have hmem : sub ∈ event2.subEvents :=
                chooseFromEvents_mem hsub hchoose
              exact ⟨by simpa using hmem, by simp⟩
      | succ k =>
          have hk : k + 1 < rest.length := by
            simpa using hi
          have := hstep k hk
          simpa using this

theorem trigger_ok_chain_aux {g : Game} {char : Character} :
    ∀ (n : Nat) (event : Event), sizeOf event < n →
    ∀ (st : State) (draws : List Nat) (res : List (String × List (Character × String))),
    g.trigger char event st draws = .ok res →
    ∃ chain, Chain g char event st draws chain ∧
      res = chain.map
        (fun p => (p.2.getReplacedText p.1.text, p.2.getResultStrs)) := by
  intro n
  induction n with
  | zero => intro event h; omega
  | succ n ih =>
      intro event hlt st draws res hok
      cases hsub : event.subEvents with
      | nil =>
          rw [trigger_eq_nil hsub] at hok
          injection hok with hres
          exact ⟨[(event, event.effect st)], Chain.leaf hsub, by simp [← hres]⟩
      | cons s0 srest =>
          rw [trigger_eq_cons hsub] at hok
          cases hc : g.chooseFromEvents char (s0 :: srest) (draws.headD 0) with
          | error msg => rw [hc] at hok; cases hok
          | ok sub =>
              rw [hc] at hok
              dsimp only at hok
              cases ht : g.trigger char sub (event.effect st) draws.tail with
              | error msg => rw [ht] at hok; cases hok
              | ok rest =>
                  rw [ht] at hok
                  injection hok with hres
                  have hmem : sub ∈ event.subEvents := by
                    rw [hsub]
                    exact chooseFromEvents_mem (List.cons_ne_nil _ _) hc
                  have hsz : sizeOf sub < n := by
                    have h1 : sizeOf sub < sizeOf event.subEvents :=
                      List.sizeOf_lt_of_mem hmem
                    have h2 : sizeOf event.subEvents < sizeOf event := by
                      cases event with
                      | mk a b c d e f => simp [Event.subEvents]
                    omega
                  obtain ⟨chain, hch, hmap⟩ :=
                    ih sub hsz (event.effect st) draws.tail rest ht
                  refine ⟨(event, event.effect st) :: chain, ?_, ?_⟩
                  · refine Chain.node ?_ ?_ hch
                    · rw [hsub]; exact List.cons_ne_nil _ _
                    · rw [hsub]; exact hc
                  · simp [← hres, hmap]

theorem chain_trigger_aux {g : Game} {char : Character} :
    ∀ {event : Event} {st : State} {draws : List Nat}
      {chain : List (Event × State)},
    Chain g char event st draws chain →
    g.trigger char event st draws =
      .ok (chain.map
        (fun p => (p.2.getReplacedText p.1.text, p.2.getResultStrs))) := by
  intro event st draws chain h
  induction h with
  | leaf hsub => rw [trigger_eq_nil hsub]; simp
  | node hsub hchoose hrest ih =>
      rename_i event2 sub st2 draws2 rest
      obtain ⟨s0, srest, hse⟩ : ∃ s0 srest,
          event2.subEvents = s0 :: srest := by
        cases hx : event2.subEvents with
        | nil => exact absurd hx hsub
        | cons a b => exact ⟨a, b, rfl⟩
      rw [hse] at hchoose
      rw [trigger_eq_cons hse, hchoose]
      dsimp only
      rw [ih]
      simp

/-- C2: a successful `trigger` call returns exactly the renderings of one
trigger chain, one `(renderedText, resultStrings)` pair per chain event in
strict chain order — the parent event's pair first, each later pair from an
event selected by weighted selection out of its parent's sub-event list,
with each level's State obtained by applying that event's effects to the
previous level's State (the same State carried forward, never a fresh one) —
and conversely every chain yields exactly its renderings, so a chain of
depth N yields exactly N ordered pairs. -/
theorem trigger_chain_correspondence (g : Game) (char : Character)
    (event : Event) (st : State) (draws : List Nat) :
    (∀ res, g.trigger char event st draws = .ok res →
      ∃ chain, Chain g char event st draws chain ∧
        res = chain.map
          (fun p => (p.2.getReplacedText p.1.text, p.2.getResultStrs)) ∧
        res.length = chain.length ∧
        chain.head? = some (event, event.effect st) ∧
        (∀ i, ∀ hi : i + 1 < chain.length,
          (chain.get ⟨i + 1, hi⟩).1 ∈
            (chain.get ⟨i, by omega⟩).1.subEvents ∧
          (chain.get ⟨i + 1, hi⟩).2 =
            (chain.get ⟨i + 1, hi⟩).1.effect (chain.get ⟨i, by omega⟩).2)) ∧
    (∀ chain, Chain g char event st draws chain →
      g.trigger char event st draws =
        .ok (chain.map
          (fun p => (p.2.getReplacedText p.1.text, p.2.getResultStrs)))) := by
  constructor
  · intro res hok
    obtain ⟨chain, hch, hmap⟩ :=
      trigger_ok_chain_aux (sizeOf event + 1) event (by omega) st draws res hok
    obtain ⟨hne, hhead, hstep⟩ := chain_props hch
    exact ⟨chain, hch, hmap, by simp [hmap], hhead, hstep⟩
  · intro chain hch
    exact chain_trigger_aux hch

/-- A depth-2 parent event whose only sub-event is `evLeaf`. -/
def evParent : Event :=
  .mk "day" "A day." 2 (fun _ => true) (fun st => st) [evLeaf]

/-- Witness for C2: triggering the depth-2 chain `evParent → evLeaf` yields
exactly the two rendered pairs, parent first. -/
theorem trigger_chain_correspondence_witness :
    gameW.trigger charA evParent State.init [] =
      .ok [("A day.", []), ("A feast.", [])] :=
  (trigger_chain_correspondence gameW charA evParent State.init []).2
    [(evParent, State.init), (evLeaf, State.init)]
    (Chain.node (List.cons_ne_nil _ _) rfl (Chain.leaf rfl))

theorem AliveCheck.parse_shape {v v2 : Valids} {args : List String}
    {c : Check} (h : AliveCheck.parse v args = .ok (v2, c)) :
    ∃ a, args = [a] ∧ v2 = v ∧ c = Check.aliveCheck a := by
  cases args with
  | nil => simp [AliveCheck.parse] at h
  | cons a1 rest =>
      cases rest with
      | nil =>
          simp only [AliveCheck.parse, Except.ok.injEq, Prod.mk.injEq] at h
          exact ⟨a1, rfl, h.1.symm, h.2.symm⟩
      | cons a2 rest2 => simp [AliveCheck.parse] at h

theorem nearby_parse_not_alive {v v2 : Valids} {args : List String}
    {c : Check} (h : NearbyCheck.parse v args = .ok (v2, c)) :
    c.isAliveCheck = false := by
  cases args with
  | nil => simp [NearbyCheck.parse] at h
  | cons a1 rest =>
      cases rest with
      | nil =>
          simp only [NearbyCheck.parse, List.length_cons, List.length_nil] at h
          rw [if_neg (by simp)] at h
          simp only [Except.ok.injEq, Prod.mk.injEq] at h
          rw [← h.2]
          rfl
      | cons a2 rest2 =>
          cases rest2 with
          | nil =>
              by_cases ha : a1 = NearbyCheck.NEARBY
              · rw [NearbyCheck.parse, if_pos (by simp [ha])] at h
                cases hv : validateCharShort a2 v with
                | error e => rw [hv] at h; cases h
                | ok u =>
                    rw [hv] at h
                    simp only [Except.ok.injEq, Prod.mk.injEq] at h
                    rw [← h.2]
                    rfl
              · rw [NearbyCheck.parse, if_neg (by simp [ha])] at h
                simp at h
          | cons a3 rest3 =>
              rw [NearbyCheck.parse, if_neg (by simp)] at h
              · cases h
              · intro st tgt hq
                cases hq
              · intro st hq
                cases hq

theorem alone_parse_not_alive {v v2 : Valids} {args : List String}
    {c : Check} (h : AloneCheck.parse v args = .ok (v2, c)) :
    c.isAliveCheck = false := by
  cases args with
  | nil => simp [AloneCheck.parse] at h
  | cons a1 rest =>
      cases rest with
      | nil =>
          simp only [AloneCheck.parse, Except.ok.injEq, Prod.mk.injEq] at h
          rw [← h.2]
          rfl
      | cons a2 rest2 => simp [AloneCheck.parse] at h

theorem relation_parse_not_alive {v v2 : Valids} {args : List String}
    {c : Check} (h : RelationCheck.parse v args = .ok (v2, c)) :
    c.isAliveCheck = false := by
  cases args with
  | nil => simp [RelationCheck.parse] at h
  | cons a1 rest =>
      cases rest with
      | nil => simp [RelationCheck.parse] at h
      | cons a2 rest2 =>
          cases rest2 with
          | nil =>
              rw [RelationCheck.parse] at h
              cases hv : validateCharShort a2 v with
              | error e => rw [hv] at h; cases h
              | ok u =>
                  rw [hv] at h
                  simp only [Except.ok.injEq, Prod.mk.injEq] at h
                  rw [← h.2]
                  rfl
          | cons a3 rest3 => simp [RelationCheck.parse] at h

theorem tag_parse_not_alive {v v2 : Valids} {args : List String}
    {c : Check} (h : TagCheck.parse v args = .ok (v2, c)) :
    c.isAliveCheck = false := by
  cases args with
  | nil => simp [TagCheck.parse] at h
  | cons a1 rest =>
      cases rest with
      | nil => simp [TagCheck.parse] at h
      | cons a2 rest2 =>
          cases rest2 with
          | nil =>
              simp only [TagCheck.parse, Except.ok.injEq, Prod.mk.injEq] at h
              rw [← h.2]
              rfl
          | cons a3 rest3 => simp [TagCheck.parse] at h

theorem item_parse_not_alive {v v2 : Valids} {args : List String}
    {c : Check} (h : ItemCheck.parse v args = .ok (v2, c)) :
    c.isAliveCheck = false := by
  cases args with
  | nil => simp [ItemCheck.parse] at h
  | cons a1 rest =>
      cases rest with
      | nil => simp [ItemCheck.parse] at h
      | cons a2 rest2 =>
          have hred : ItemCheck.parse v (a1 :: a2 :: rest2) =
              (if a1 = ItemCheck.BY_TAGS then
                match validateLoadedItemTags (addItemShortToValids a2 v)
                    rest2 with
                | .error e => .error e
                | .ok _ =>
                    .ok (addItemShortToValids a2 v,
                      Check.itemCheck a1 a2 rest2)
              else
                .ok (addItemShortToValids a2 v,
                  Check.itemCheck a1 a2 rest2)) := rfl
          rw [hred] at h
          by_cases ha : a1 = ItemCheck.BY_TAGS
          · rw [if_pos ha] at h
            cases hv : validateLoadedItemTags
                (addItemShortToValids a2 v) rest2 with
            | error e => rw [hv] at h; cases h
            | ok u =>
                rw [hv] at h
                simp only [Except.ok.injEq, Prod.mk.injEq] at h
                rw [← h.2]
                rfl
          · rw [if_neg ha] at h
            simp only [Except.ok.injEq, Prod.mk.injEq] at h
            rw [← h.2]
            rfl

theorem create_parse_not_alive {v v2 : Valids} {args : List String}
    {c : Check} (h : CreateCheck.parse v args = .ok (v2, c)) :
    c.isAliveCheck = false := by
  cases args with
  | nil => simp [CreateCheck.parse] at h
  | cons a1 rest =>
      cases rest with
      | nil => simp [CreateCheck.parse] at h
      | cons a2 rest2 =>
          have hred : CreateCheck.parse v (a1 :: a2 :: rest2) =
              (if a1 = CreateCheck.BY_TAGS then
                match validateLoadedItemTags (addItemShortToValids a2 v)
                    rest2 with
                | .error e => .error e
                | .ok _ =>
                    match CreateCheck.resolvePool (addItemShortToValids a2 v)
                        a1 rest2 with
                    | .error e => .error e
                    | .ok items =>
                        .ok (addItemShortToValids a2 v,
                          Check.createCheck a1 a2 rest2 items)
              else
                match CreateCheck.resolvePool (addItemShortToValids a2 v)
                    a1 rest2 with
                | .error e => .error e
                | .ok items =>
                    .ok (addItemShortToValids a2 v,
                      Check.createCheck a1 a2 rest2 items)) := rfl
          rw [hred] at h
          by_cases ha : a1 = CreateCheck.BY_TAGS
          · rw [if_pos ha] at h
            cases hv : validateLoadedItemTags
                (addItemShortToValids a2 v) rest2 with
            | error e => rw [hv] at h; cases h
            | ok u =>
                rw [hv] at h
                cases hi : CreateCheck.resolvePool (addItemShortToValids a2 v)
                    a1 rest2 with
                | error e => rw [hi] at h; cases h
                | ok items =>
                    rw [hi] at h
                    simp only [Except.ok.injEq, Prod.mk.injEq] at h
                    rw [← h.2]
                    rfl
          · rw [if_neg ha] at h
            cases hi : CreateCheck.resolvePool (addItemShortToValids a2 v)
                a1 rest2 with
            | error e => rw [hi] at h; cases h
            | ok items =>
                rw [hi] at h
                simp only [Except.ok.injEq, Prod.mk.injEq] at h
                rw [← h.2]
                rfl

theorem location_parse_not_alive {v v2 : Valids} {args : List String}
    {c : Check} (h : LocationCheck.parse v args = .ok (v2, c)) :
    c.isAliveCheck = false := by
  cases args with
  | nil => simp [LocationCheck.parse] at h
  | cons a1 rest =>
      cases rest with
      | nil => simp [LocationCheck.parse] at h
      | cons a2 rest2 =>
          cases rest2 with
          | nil =>
              rw [LocationCheck.parse] at h
              cases hv : validateLoadedZoneName a2 v with
              | error e => rw [hv] at h; cases h
              | ok u =>
                  rw [hv] at h
                  simp only [Except.ok.injEq, Prod.mk.injEq] at h
                  rw [← h.2]
                  rfl
          | cons a3 rest3 => simp [LocationCheck.parse] at h

theorem limit_parse_not_alive {v v2 : Valids} {args : List String}
    {c : Check} (h : LimitCheck.parse v args = .ok (v2, c)) :
    c.isAliveCheck = false := by
  cases args with
  | nil => simp [LimitCheck.parse] at h
  | cons a1 rest =>
      cases rest with
      | nil => simp [LimitCheck.parse] at h
      | cons a2 rest2 =>
          cases rest2 with
          | nil => simp [LimitCheck.parse] at h
          | cons a3 rest3 =>
              cases rest3 with
              | nil =>
                  rw [LimitCheck.parse] at h
                  cases hv : validateIsInt a3 with
                  | error e => rw [hv] at h; cases h
                  | ok u =>
                      rw [hv] at h
                      simp only [Except.ok.injEq, Prod.mk.injEq] at h
                      rw [← h.2]
                      rfl
              | cons a4 rest4 => simp [LimitCheck.parse] at h

theorem constructCheck_alive_iff {v v2 : Valids} {args : List String}
    {c : Check} (h : constructCheck v args = .ok (v2, c)) :
    (c.isAliveCheck = true ↔
      args.head? = some AliveCheck.ALIVE ∨
      args.head? = some AliveCheck.DEAD) := by
  cases args with
  | nil => simp [constructCheck] at h
  | cons d rest =>
      rw [constructCheck] at h
      simp only [List.head?_cons] at h ⊢
      simp only [Option.some.injEq]
      by_cases h1 : ([NearbyCheck.NEARBY, NearbyCheck.ANYDISTANCE].contains d)
        = true
      · rw [if_pos h1] at h
        have hna := nearby_parse_not_alive h
        have hd : d = NearbyCheck.NEARBY ∨ d = NearbyCheck.ANYDISTANCE := by
          simpa using h1
        rw [hna]
        simp only [Bool.false_eq_true, false_iff]
        rcases hd with hd | hd <;> rw [hd] <;> simp [NearbyCheck.NEARBY,
          NearbyCheck.ANYDISTANCE, AliveCheck.ALIVE, AliveCheck.DEAD]
      · rw [if_neg h1] at h
        by_cases h2 : ([AliveCheck.ALIVE, AliveCheck.DEAD].contains d) = true
        · rw [if_pos h2] at h
          obtain ⟨a, hargs, _, hc⟩ := AliveCheck.parse_shape h
          have hda : a = d := by
            have := congrArg List.head? hargs
            simpa using this.symm
          rw [hc, hda]
          have hd : d = AliveCheck.ALIVE ∨ d = AliveCheck.DEAD := by
            simpa using h2
          simp only [Check.isAliveCheck, true_iff]
          exact hd
        · rw [if_neg h2] at h
          have hnd : ¬(d = AliveCheck.ALIVE ∨ d = AliveCheck.DEAD) := by
            simpa using h2
          by_cases h3 : ([AloneCheck.ALONE, AloneCheck.ALLIED].contains d)
            = true
          · rw [if_pos h3] at h
            rw [alone_parse_not_alive h]
            simp only [Bool.false_eq_true, false_iff]
            exact hnd
          · rw [if_neg h3] at h
            by_cases h4 : ([RelationCheck.ALLY, RelationCheck.ENEMY].contains
              d) = true
            · rw [if_pos h4] at h
              rw [relation_parse_not_alive h]
              simp only [Bool.false_eq_true, false_iff]
              exact hnd
            · rw [if_neg h4] at h
              by_cases h5 : d = "tag"
              · rw [if_pos h5] at h
                rw [tag_parse_not_alive h]
                simp only [Bool.false_eq_true, false_iff]
                exact hnd
              · rw [if_neg h5] at h
                by_cases h6 : ([ItemCheck.BY_TAGS, ItemCheck.BY_NAME].contains
                  d) = true
                · rw [if_pos h6] at h
                  rw [item_parse_not_alive h]
                  simp only [Bool.false_eq_true, false_iff]
                  exact hnd
                · rw [if_neg h6] at h
                  by_cases h7 : ([CreateCheck.BY_TAGS,
                    CreateCheck.BY_NAME].contains d) = true
                  · rw [if_pos h7] at h
                    rw [create_parse_not_alive h]
                    simp only [Bool.false_eq_true, false_iff]
                    exact hnd
                  · rw [if_neg h7] at h
                    by_cases h8 : d = "in"
                    · rw [if_pos h8] at h
                      rw [location_parse_not_alive h]
                      simp only [Bool.false_eq_true, false_iff]
                      exact hnd
                    · rw [if_neg h8] at h
                      by_cases h9 : d = "limit"
                      · rw [if_pos h9] at h
                        rw [limit_parse_not_alive h]
                        simp only [Bool.false_eq_true, false_iff]
                        exact hnd
                      · rw [if_neg h9] at h
                        cases h

theorem loadChecks_pointwise :
    ∀ {args : List (List String)} {v v2 : Valids} {cs : List Check},
    loadChecks v args = .ok (v2, cs) →
    cs.length = args.length ∧
    ∀ i, ∀ hi : i < args.length, ∀ hic : i < cs.length,
      ∃ va vb, constructCheck va (args.get ⟨i, hi⟩) =
        .ok (vb, cs.get ⟨i, hic⟩) := by
  intro args
  induction args with
  | nil =>
      intro v v2 cs h
      simp only [loadChecks, Except.ok.injEq, Prod.mk.injEq] at h
      rw [← h.2]
      exact ⟨rfl, fun i hi => by simp at hi⟩
  | cons a rest ih =>
      intro v v2 cs h
      rw [loadChecks] at h
      cases hc : constructCheck v a with
      | error e => rw [hc] at h; cases h
      | ok p =>
          obtain ⟨pv, pc⟩ := p
          rw [hc] at h
          dsimp only at h
          cases hl : loadChecks pv rest with
          | error e => rw [hl] at h; cases h
          | ok q =>
              obtain ⟨qv, qcs⟩ := q
              rw [hl] at h
              dsimp only at h
              simp only [Except.ok.injEq, Prod.mk.injEq] at h
              obtain ⟨hlen, hstep⟩ := ih hl
              rw [← h.2]
              constructor
              · simp [hlen]
              · intro i hi hic
                cases i with
                | zero => exact ⟨v, pv, by simpa using hc⟩
                | succ k =>
                    have hk : k < rest.length := by simpa using hi
                    have hkc : k < qcs.length := by rw [hlen]; exact hk
                    obtain ⟨va, vb, hv⟩ := hstep k hk hkc
                    exact ⟨va, vb, by simpa using hv⟩

theorem checkAll_cons_alive (cs : List Check) (pick : List Item → Item)
    (char : Character) (st : State) :
    CheckSuite.checkAll (Check.aliveCheck AliveCheck.ALIVE :: cs) pick char
        st =
      (CheckSuite.checkAll cs pick char st).map
        (fun r => (char.isAlive :: r.1, r.2)) := by
  rw [CheckSuite.checkAll]
  have he : (Check.aliveCheck AliveCheck.ALIVE).eval pick char st =
      .ok (char.isAlive, st) := by
    simp [Check.eval]
  rw [he]
  dsimp only
  cases h : CheckSuite.checkAll cs pick char st with
  | error e => rfl
  | ok r =>
      obtain ⟨l, st3⟩ := r
      rfl

/-- C3: when a suite's authored condition lists contain no Liveness
condition (no list headed `alive` or `dead`), `load` inserts exactly one
implicit `AliveCheck` with state `alive` at position 0 — so the suite then
holds exactly one Liveness condition, at the front, and `checkAll` evaluates
it first, contributing the character's liveness as the first boolean without
touching the state; when a Liveness condition was authored, the loaded
conditions are left exactly as constructed, with no implicit insertion. -/
theorem checkSuite_load_implicit_alive (charShort : String)
    (argsLists : List (List String)) (valids v2 : Valids)
    (checks : List Check)
    (hload : CheckSuite.load charShort argsLists valids = .ok (v2, checks)) :
    ((∀ args ∈ argsLists, args.head? ≠ some AliveCheck.ALIVE ∧
        args.head? ≠ some AliveCheck.DEAD) →
      checks.head? = some (Check.aliveCheck AliveCheck.ALIVE) ∧
      checks.countP (fun c => c.isAliveCheck) = 1 ∧
      (∃ loaded, loadChecks (valids.addCharShort charShort) argsLists =
          .ok (v2, loaded) ∧
        checks = Check.aliveCheck AliveCheck.ALIVE :: loaded) ∧
      (∀ pick char st,
        CheckSuite.checkAll checks pick char st =
          (CheckSuite.checkAll checks.tail pick char st).map
            (fun r => (char.isAlive :: r.1, r.2)))) ∧
    ((∃ args ∈ argsLists, args.head? = some AliveCheck.ALIVE ∨
        args.head? = some AliveCheck.DEAD) →
      loadChecks (valids.addCharShort charShort) argsLists =
        .ok (v2, checks)) := by
  rw [CheckSuite.load] at hload
  cases hl : loadChecks (valids.addCharShort charShort) argsLists with
  | error e => rw [hl] at hload; cases hload
  | ok q =>
      obtain ⟨qv, loaded⟩ := q
      rw [hl] at hload
      dsimp only at hload
      simp only [Except.ok.injEq, Prod.mk.injEq] at hload
      obtain ⟨hv2, hcs⟩ := hload
      obtain ⟨hlen, hstep⟩ := loadChecks_pointwise hl
      constructor
      · intro hno
        have hnone : loaded.any Check.isAliveCheck = false := by
          rw [List.any_eq_false]
          intro c hcmem
          obtain ⟨⟨i, hi⟩, hci⟩ := List.mem_iff_get.mp hcmem
          have hia : i < argsLists.length := by omega
          obtain ⟨va, vb, hcon⟩ := hstep i hia hi
          have hiff := constructCheck_alive_iff hcon
          rw [hci] at hiff
          have hhd := hno (argsLists.get ⟨i, hia⟩) (List.get_mem _ _ _)
          simp only [Bool.not_eq_true]
          cases hca : c.isAliveCheck
          · rfl
          · rcases hiff.mp hca with hx | hx
            · exact absurd hx hhd.1
            · exact absurd hx hhd.2
        rw [hnone] at hcs
        simp only [Bool.not_false, if_pos] at hcs
        have hall : ∀ c ∈ loaded, c.isAliveCheck = false := by
          intro c hcmem
          have := List.any_eq_false.mp hnone c hcmem
          simpa using this
        refine ⟨by rw [← hcs]; rfl, ?_,
          ⟨loaded, by rw [hv2], hcs.symm⟩, ?_⟩
        · rw [← hcs]
          have h0 : loaded.countP (fun c => c.isAliveCheck) = 0 := by
            rw [List.countP_eq_zero]
            intro c hcmem
            simp [hall c hcmem]
          rw [List.countP_cons, h0]
          simp [Check.isAliveCheck]
        · intro pick char st
          rw [← hcs]
          exact checkAll_cons_alive loaded pick char st
      · rintro ⟨args, hmem, hor⟩
        obtain ⟨⟨j, hj⟩, hja⟩ := List.mem_iff_get.mp hmem
        have hjc : j < loaded.length := by omega
        obtain ⟨va, vb, hcon⟩ := hstep j hj hjc
        have hiff := constructCheck_alive_iff hcon
        have halive : (loaded.get ⟨j, hjc⟩).isAliveCheck = true := by
          rw [hiff, hja]
          exact hor
        have hany : loaded.any Check.isAliveCheck = true :=
          List.any_eq_true.mpr ⟨loaded.get ⟨j, hjc⟩, List.get_mem _ _ _,
            halive⟩
        rw [hany] at hcs
        simp only [Bool.not_true, Bool.false_eq_true, if_false] at hcs
        rw [hv2, hcs]

/-- The registry state after loading the witness suite below. -/
def valids1 : Valids :=
  { charShorts := ["c"], itemShorts := [], tagNames := ["t"],
    zoneNames := [], loadedItems := [] }

/-- Witness for C3: loading the suite `[["tag", "t"]]` (no authored Liveness
condition) yields the implicit `alive` check at position 0 followed by the
authored tag check. -/
theorem checkSuite_load_implicit_alive_witness :
    CheckSuite.load "c" [["tag", "t"]] emptyValids =
      .ok (valids1, [Check.aliveCheck AliveCheck.ALIVE,
        Check.tagCheck "t"]) ∧
    [Check.aliveCheck AliveCheck.ALIVE, Check.tagCheck "t"].head? =
      some (Check.aliveCheck AliveCheck.ALIVE) ∧
    [Check.aliveCheck AliveCheck.ALIVE, Check.tagCheck "t"].countP
      (fun c => c.isAliveCheck) = 1 :=
  ⟨by rfl,
    ((checkSuite_load_implicit_alive "c" [["tag", "t"]] emptyValids valids1
      [Check.aliveCheck AliveCheck.ALIVE, Check.tagCheck "t"]
      (by rfl)).1 (by decide)).1,
    ((checkSuite_load_implicit_alive "c" [["tag", "t"]] emptyValids valids1
      [Check.aliveCheck AliveCheck.ALIVE, Check.tagCheck "t"]
      (by rfl)).1 (by decide)).2.1⟩

theorem joinAlliance_spec (cast : List String) (w : AllianceWorld)
    (c : String) (r : Nat) (hinv : AllianceInv cast w) (hc : c ∈ cast)
    (halone : w.heap (w.ref c) = []) (hrlt : r < w.next)
    (hr : ∀ d, d ∈ cast → w.ref d = r → w.heap r ≠ []) :
    AllianceInv cast (w.joinAlliance c r) ∧
    (w.joinAlliance c r).isAlone c = false ∧
    (∀ m, m ∈ w.heap r →
      (w.joinAlliance c r).isAllyOf c m = true ∧
      (w.joinAlliance c r).isAllyOf m c = true ∧
      (w.joinAlliance c r).isAlone m = false) := by
  obtain ⟨inv1, inv2, inv3, inv4, inv5, inv6⟩ := hinv
  have hcr : w.ref c ≠ r := by
    intro hx
    exact hr c hc hx (by rw [← hx]; exact halone)
  have hcnotin : c ∉ w.heap r := by
    intro hx
    exact hcr ((inv4 r c hx).2)
  have href : ∀ x, (w.joinAlliance c r).ref x =
      if x = c then r else w.ref x := fun _ => rfl
  have hheap : ∀ x, (w.joinAlliance c r).heap x =
      if x = r then w.heap r ++ [c] else w.heap x := fun _ => rfl
  have hnext : (w.joinAlliance c r).next = w.next := rfl
  refine ⟨⟨?_, ?_, ?_, ?_, ?_, ?_⟩, ?_, ?_⟩
  · intro d hd
    rw [href, hnext]
    by_cases hdc : d = c
    · rw [if_pos hdc]; exact hrlt
    · rw [if_neg hdc]; exact inv1 d hd
  · intro s hs
    rw [hnext] at hs
    rw [hheap, if_neg (by omega)]
    exact inv2 s hs
  · intro s
    rw [hheap]
    by_cases hsr : s = r
    · rw [if_pos hsr]
      have : (w.heap r ++ [c]).Nodup := by
        rw [List.nodup_append]
        exact ⟨inv3 r, List.nodup_singleton c,
          by intro a ha hamem; simp at hamem; rw [hamem] at ha
             exact hcnotin ha⟩
      exact this
    · rw [if_neg hsr]; exact inv3 s
  · intro s m hm
    rw [hheap] at hm
    rw [href]
    by_cases hsr : s = r
    · rw [if_pos hsr] at hm
      rcases List.mem_append.mp hm with hm | hm
      · have h4 := inv4 r m hm
        have hmc : m ≠ c := fun hx => hcnotin (hx ▸ hm)
        rw [if_neg hmc, hsr]
        exact ⟨h4.1, h4.2⟩
      · simp only [List.mem_singleton] at hm
        rw [hm, if_pos rfl, hsr]
        exact ⟨hc, rfl⟩
    · rw [if_neg hsr] at hm
      have h4 := inv4 s m hm
      have hmc : m ≠ c := by
        intro hx
        rw [hx] at h4
        rw [h4.2] at halone
        rw [halone] at hm
        simp at hm
      rw [if_neg hmc]
      exact h4
  · intro d hd
    rw [href, hheap]
    by_cases hdc : d = c
    · rw [if_pos hdc, if_pos rfl]
      intro _
      rw [hdc]
      simp
    · rw [if_neg hdc]
      by_cases hdr : w.ref d = r
      · rw [if_pos hdr]
        intro _
        have hne := hr d hd hdr
        have := inv5 d hd (by rw [hdr]; exact hne)
        rw [hdr] at this
        exact List.mem_append_left _ this
      · rw [if_neg hdr]
        exact inv5 d hd
  · intro d e hd he hde hne2
    rw [href, href] at hde
    rw [href, hheap]
    by_cases hdc : d = c
    · rw [if_pos hdc, if_pos rfl]
      simp
    · rw [if_neg hdc]
      rw [if_neg hdc] at hde
      by_cases hdr : w.ref d = r
      · rw [if_pos hdr]
        simp
      · rw [if_neg hdr]
        by_cases hec : e = c
        · rw [if_pos hec] at hde
          exact absurd hde hdr
        · rw [if_neg hec] at hde
          exact inv6 d e hd he hde hne2
  · rw [AllianceWorld.isAlone, href, if_pos rfl, hheap, if_pos rfl]
    simp
  · intro m hm
    have hm4 := inv4 r m hm
    have hmc : m ≠ c := fun hx => hcnotin (hx ▸ hm)
    refine ⟨?_, ?_, ?_⟩
    · rw [AllianceWorld.isAllyOf, href, if_pos rfl, hheap, if_pos rfl]
      simpa using List.mem_append_left [c] hm
    · rw [AllianceWorld.isAllyOf, href, if_neg hmc, hm4.2, hheap, if_pos rfl]
      simp
    · rw [AllianceWorld.isAlone, href, if_neg hmc, hm4.2, hheap, if_pos rfl]
      simp

theorem leaveAlliance_spec (cast : List String) (w : AllianceWorld)
    (c : String) (hinv : AllianceInv cast w) (hc : c ∈ cast) :
    AllianceInv cast (w.leaveAlliance c) ∧
    (w.leaveAlliance c).heap ((w.leaveAlliance c).ref c) = [] ∧
    (w.heap (w.ref c) ≠ [] →
      (w.leaveAlliance c).heap (w.ref c) = (w.heap (w.ref c)).erase c ∧
      c ∉ (w.leaveAlliance c).heap (w.ref c) ∧
      (∀ x, x ∈ (w.leaveAlliance c).heap ((w.leaveAlliance c).ref c) →
        x ∉ (w.leaveAlliance c).heap (w.ref c))) := by
  obtain ⟨inv1, inv2, inv3, inv4, inv5, inv6⟩ := hinv
  by_cases halone : w.heap (w.ref c) = []
  · have heq : w.leaveAlliance c = w := by
      rw [AllianceWorld.leaveAlliance, if_pos (by simp [halone])]
    refine ⟨?_, ?_, fun hne => absurd halone hne⟩
    · rw [heq]
      exact ⟨inv1, inv2, inv3, inv4, inv5, inv6⟩
    · rw [heq]
      exact halone
  · have hif : w.leaveAlliance c =
        { ref := fun x => if x = c then w.next else w.ref x,
          heap := fun x =>
            if x = w.next then []
            else if x = w.ref c then (w.heap (w.ref c)).erase c
            else w.heap x,
          next := w.next + 1 } := by
      rw [AllianceWorld.leaveAlliance,
        if_neg (by simpa [List.isEmpty_iff] using halone)]
    have href : ∀ x, (w.leaveAlliance c).ref x =
        if x = c then w.next else w.ref x := by
      intro x; rw [hif]
    have hheap : ∀ x, (w.leaveAlliance c).heap x =
        if x = w.next then []
        else if x = w.ref c then (w.heap (w.ref c)).erase c
        else w.heap x := by
      intro x; rw [hif]
    have hnext : (w.leaveAlliance c).next = w.next + 1 := by rw [hif]
    have hr0n : w.ref c ≠ w.next := by
      have := inv1 c hc
      omega
    have hcl : c ∈ w.heap (w.ref c) := inv5 c hc halone
    refine ⟨⟨?_, ?_, ?_, ?_, ?_, ?_⟩, ?_, ?_⟩
    · intro d hd
      rw [href, hnext]
      by_cases hdc : d = c
      · rw [if_pos hdc]; omega
      · rw [if_neg hdc]
        have := inv1 d hd
        omega
    · intro s hs
      rw [hnext] at hs
      rw [hheap, if_neg (by omega)]
      have hsr : s ≠ w.ref c := by
        have := inv1 c hc
        omega
      rw [if_neg hsr]
      exact inv2 s (by omega)
    · intro s
      rw [hheap]
      by_cases hsn : s = w.next
      · rw [if_pos hsn]; exact List.nodup_nil
      · rw [if_neg hsn]
        by_cases hsr : s = w.ref c
        · rw [if_pos hsr]
          exact (inv3 (w.ref c)).erase c
        · rw [if_neg hsr]; exact inv3 s
    · intro s m hm
      rw [hheap] at hm
      rw [href]
      by_cases hsn : s = w.next
      · rw [if_pos hsn] at hm
        simp at hm
      · rw [if_neg hsn] at hm
        by_cases hsr : s = w.ref c
        · rw [if_pos hsr] at hm
          have hmm := ((inv3 (w.ref c)).mem_erase_iff).mp hm
          have h4 := inv4 (w.ref c) m hmm.2
          rw [if_neg hmm.1, hsr]
          exact h4
        · rw [if_neg hsr] at hm
          have h4 := inv4 s m hm
          have hmc : m ≠ c := by
            intro hx
            rw [hx] at h4
            exact hsr h4.2.symm
          rw [if_neg hmc]
          exact h4
    · intro d hd
      rw [href, hheap]
      by_cases hdc : d = c
      · rw [if_pos hdc, if_pos rfl]
        intro hx
        exact absurd rfl hx
      · rw [if_neg hdc]
        have hdn : w.ref d ≠ w.next := by
          have := inv1 d hd
          omega
        rw [if_neg hdn]
        by_cases hdr : w.ref d = w.ref c
        · rw [if_pos hdr]
          intro _
          have hdl : d ∈ w.heap (w.ref d) :=
            inv5 d hd (by rw [hdr]; exact halone)
          rw [hdr] at hdl
          exact ((inv3 (w.ref c)).mem_erase_iff).mpr ⟨hdc, hdl⟩
        · rw [if_neg hdr]
          exact inv5 d hd
    · intro d e hd he hde hne2
      rw [href, href] at hde
      rw [href, hheap]
      by_cases hdc : d = c
      · rw [if_pos hdc] at hde ⊢
        by_cases hec : e = c
        · rw [hdc, hec] at hne2
          exact absurd rfl hne2
        · rw [if_neg hec] at hde
          have := inv1 e he
          omega
      · rw [if_neg hdc] at hde ⊢
        by_cases hec : e = c
        · rw [if_pos hec] at hde
          have := inv1 d hd
          omega
        · rw [if_neg hec] at hde
          have hdn : w.ref d ≠ w.next := by
            have := inv1 d hd
            omega
          rw [if_neg hdn]
          by_cases hdr : w.ref d = w.ref c
          · rw [if_pos hdr]
            have hdl : d ∈ w.heap (w.ref d) :=
              inv5 d hd (by rw [hdr]; exact halone)
            rw [hdr] at hdl
            have : d ∈ (w.heap (w.ref c)).erase c :=
              ((inv3 (w.ref c)).mem_erase_iff).mpr ⟨hdc, hdl⟩
            exact List.ne_nil_of_mem this
          · rw [if_neg hdr]
            exact inv6 d e hd he hde hne2
    · rw [href, if_pos rfl, hheap, if_pos rfl]
    · intro _
      refine ⟨?_, ?_, ?_⟩
      · rw [hheap, if_neg hr0n, if_pos rfl]
      · rw [hheap, if_neg hr0n, if_pos rfl]
        intro hx
        exact absurd rfl (((inv3 (w.ref c)).mem_erase_iff).mp hx).1
      · intro x hx
        rw [href, if_pos rfl, hheap, if_pos rfl] at hx
        simp at hx

/-- C8: a character is alone exactly when their alliance collection is
empty; `joinAlliance` (for an alone character joining a live collection
whose referencers are all members) preserves the alliance invariant — every
non-empty collection is referenced by exactly its members — and afterwards
the new member and every existing member are mutually allies and none of
them is alone; `leaveAlliance` preserves the invariant, leaves the leaver
with an empty collection, and the remaining shared collection is the old one
with the leaver removed, no longer contains the leaver, and is disjoint from
the leaver's (empty) collection. -/
theorem alliance_join_leave_invariant (cast : List String)
    (w : AllianceWorld) (hinv : AllianceInv cast w) :
    (∀ c, w.isAlone c = true ↔ w.heap (w.ref c) = []) ∧
    (∀ c r, c ∈ cast → w.heap (w.ref c) = [] → r < w.next →
      (∀ d, d ∈ cast → w.ref d = r → w.heap r ≠ []) →
      AllianceInv cast (w.joinAlliance c r) ∧
      (w.joinAlliance c r).isAlone c = false ∧
      (∀ m, m ∈ w.heap r →
        (w.joinAlliance c r).isAllyOf c m = true ∧
        (w.joinAlliance c r).isAllyOf m c = true ∧
        (w.joinAlliance c r).isAlone m = false)) ∧
    (∀ c, c ∈ cast →
      AllianceInv cast (w.leaveAlliance c) ∧
      (w.leaveAlliance c).heap ((w.leaveAlliance c).ref c) = [] ∧
      (w.heap (w.ref c) ≠ [] →
        (w.leaveAlliance c).heap (w.ref c) = (w.heap (w.ref c)).erase c ∧
        c ∉ (w.leaveAlliance c).heap (w.ref c) ∧
        (∀ x, x ∈ (w.leaveAlliance c).heap ((w.leaveAlliance c).ref c) →
          x ∉ (w.leaveAlliance c).heap (w.ref c)))) := by
  refine ⟨?_, ?_, ?_⟩
  · intro c
    rw [AllianceWorld.isAlone]
    exact List.isEmpty_iff
  · intro c r hc halone hrlt hr
    exact joinAlliance_spec cast w c r hinv hc halone hrlt hr
  · intro c hc
    exact leaveAlliance_spec cast w c hinv hc

/-- The concrete cast for the C8 witness. -/
def castW : List String := ["ash", "bay", "cole"]

/-- A concrete alliance store: `ash` and `bay` share collection 0, `cole`
is alone with private empty collection 1. -/
def allianceW : AllianceWorld :=
  { ref := fun x => if x = "ash" then 0 else if x = "bay" then 0 else 1,
    heap := fun r => if r = 0 then ["ash", "bay"] else [],
    next := 2 }

/-- Witness for C8: after `cole` joins the `ash`/`bay` collection, `cole` is
no longer alone and is mutually allies with `ash`. -/
theorem alliance_join_leave_invariant_witness :
    (allianceW.joinAlliance "cole" 0).isAlone "cole" = false ∧
    (allianceW.joinAlliance "cole" 0).isAllyOf "cole" "ash" = true ∧
    (allianceW.joinAlliance "cole" 0).isAllyOf "ash" "cole" = true := by
  have hinv : AllianceInv castW allianceW := by
    refine ⟨by decide, ?_, ?_, ?_, by decide, ?_⟩
    · intro r hr
      have h2 : allianceW.next = 2 := rfl
      rw [h2] at hr
      have h0 : r ≠ 0 := by omega
      simp [allianceW, h0]
    · intro r
      by_cases h0 : r = 0
      · rw [h0]
        decide
      · simp [allianceW, h0]
    · intro r m hm
      by_cases h0 : r = 0
      · subst h0
        have hh : allianceW.heap 0 = ["ash", "bay"] := rfl
        rw [hh] at hm
        simp only [List.mem_cons, List.not_mem_nil] at hm
        rcases hm with hm | hm | hm
        · subst hm
          exact ⟨by decide, by decide⟩
        · subst hm
          exact ⟨by decide, by decide⟩
        · simp at hm
      · simp [allianceW, h0] at hm
    · intro c d hcc hdd href hne
      simp only [castW, List.mem_cons, List.not_mem_nil, or_false] at hcc hdd
      rcases hcc with rfl | rfl | rfl <;> rcases hdd with rfl | rfl | rfl <;>
        revert href hne <;> decide
  obtain ⟨-, hjoin, -⟩ := alliance_join_leave_invariant castW allianceW hinv
  obtain ⟨-, halonef, hmut⟩ :=
    hjoin "cole" 0 (by decide) (by decide) (by decide) (by decide)
  exact ⟨halonef, (hmut "ash" (by decide)).1, (hmut "ash" (by decide)).2.1⟩
